import Mathlib

/-! # Voxel Launcher: account store, credential cipher and interactive login

A shallow embedding of `src/accounts.js` and `src/msauth.js`.

* JavaScript values are the type `JsVal`; an object is an ordered list of
  key/value pairs (`Obj`), read with `Obj.get` (an absent key reads as
  `undefined`) and written with `Obj.set` (assignment) and `Obj.spread`
  (object spread).
* The accounts file is the type `Disk`; `loadAccounts`, `saveAccounts`,
  `addAccount`, `removeAccount`, `selectAccount` and `addOfflineAccount`
  pass it explicitly. What `loadAccounts` returns is the type `Loaded`: a
  store, or a parsed document without a list of accounts, on which the
  operations that go through `accounts.accounts` throw a `TypeError`.
* The Node primitives the cipher calls (SHA-256, AES-256-CBC, UTF-8) are the
  fields of `Platform`; hexadecimal coding, the `iv:ciphertext` framing and
  the splitting on `:` are concrete.
* The interactive login is a transition system on `AuthState`: one step per
  call of `authenticateWithMicrosoft` and per browser event.
* The federation chain takes the answers of the servers as the record
  `Network`; a stage returns the body of its response or the value it throws.
-/

namespace Voxel

/-! ## JavaScript values and objects -/

/-- The JavaScript values that occur in an account record: `undefined`, `null`,
booleans, integer numbers (all numbers of the program are epoch milliseconds)
and strings. -/
inductive JsVal where
  | undefined : JsVal
  | null : JsVal
  | bool (b : Bool) : JsVal
  | num (n : Int) : JsVal
  | str (s : String) : JsVal
  deriving DecidableEq, Repr

/-- JavaScript truthiness (`if (v)`, `!v`): `undefined`, `null`, `false`, `0`
and the empty string are falsy. -/
def JsVal.truthy : JsVal → Bool
  | .undefined => false
  | .null => false
  | .bool b => b
  | .num n => n ≠ 0
  | .str s => s ≠ ""

/-- An object: its own properties in insertion order. -/
abbrev Obj := List (String × JsVal)

/-- Property lookup: the value of the entry with key `k` (of the last one, should
a list hold the key twice, as `JSON.parse` reads a repeated key), `none` when
the object has no such property. -/
def Obj.find? (o : Obj) (k : String) : Option JsVal :=
  ((o.filter (fun kv => decide (kv.1 = k))).getLast?).map Prod.snd

/-- Property read `o.k`: `undefined` when the object has no such property. -/
def Obj.get (o : Obj) (k : String) : JsVal := (o.find? k).getD .undefined

/-- Whether `k` is an own property of the object. -/
def Obj.has (o : Obj) (k : String) : Bool := (o.find? k).isSome

/-- Property write `o.k = v`: replaces the value where the key exists (keeping its
position), appends the entry otherwise. -/
def Obj.set (o : Obj) (k : String) (v : JsVal) : Obj :=
  if o.has k then o.map (fun kv => (kv.1, if kv.1 = k then v else kv.2))
  else o ++ [(k, v)]

/-- Object spread `{...a, ...b}`: the properties of `a`, overridden or extended by
those of `b` in order. -/
def Obj.spread (a : Obj) : Obj → Obj
  | [] => a
  | (k, v) :: rest => Obj.spread (Obj.set a k v) rest

/-! ## The account store (`src/accounts.js`) -/

/-- The value `loadAccounts` returns and `saveAccounts` takes:
`{ accounts: [...], selectedAccount }`. -/
structure Store where
  accounts : List Obj
  selectedAccount : JsVal
  deriving DecidableEq, Repr

/-- The store `{ accounts: [], selectedAccount: null }` returned when the file is
absent or cannot be read. -/
def Store.empty : Store := { accounts := [], selectedAccount := .null }

/-- The identifier of an account as the source computes it everywhere:
`acc.type === "microsoft" ? acc.uuid : acc.username`. -/
def accId (acc : Obj) : JsVal :=
  if acc.get "type" = .str "microsoft" then acc.get "uuid" else acc.get "username"

/-- The callback of `findIndex` in `addAccount`: by uuid when the incoming data is
a microsoft account, by username among offline accounts otherwise. -/
def sameAccount (accountData acc : Obj) : Bool :=
  if accountData.get "type" = .str "microsoft" then
    decide (acc.get "uuid" = accountData.get "uuid")
  else
    decide (acc.get "username" = accountData.get "username") &&
      decide (acc.get "type" = .str "offline")

/-- The method `Array.prototype.findIndex`, with `none` for `-1`. -/
def findIndex (p : Obj → Bool) : List Obj → Option Nat
  | [] => none
  | a :: rest => if p a then some 0 else (findIndex p rest).map (· + 1)

/-- The body of `addAccount` between `loadAccounts()` and `saveAccounts(accounts)`.
`now k` is the value of the `k`-th reading of `Date.now()` in the call. -/
def addAccountTo (accounts : Store) (now : Nat → Int) (accountData : Obj) : Store :=
  let updated : List Obj :=
    match findIndex (sameAccount accountData) accounts.accounts with
    | some existingIndex =>
        accounts.accounts.set existingIndex
          (((accounts.accounts.getD existingIndex []).spread accountData).set
            "lastUsed" (.num (now 0)))
    | none =>
        accounts.accounts ++
          [((Obj.spread [] accountData).set "addedAt" (.num (now 0))).set
            "lastUsed" (.num (now 1))]
  let selected : JsVal :=
    if accounts.selectedAccount.truthy then accounts.selectedAccount
    else if accountData.get "type" = .str "microsoft" then accountData.get "uuid"
    else accountData.get "username"
  { accounts := updated, selectedAccount := selected }

/-- The body of `removeAccount` between `loadAccounts()` and `saveAccounts`. -/
def removeAccountFrom (accounts : Store) (identifier : JsVal) : Store :=
  let remaining := accounts.accounts.filter (fun acc => decide (accId acc ≠ identifier))
  let selected : JsVal :=
    if accounts.selectedAccount = identifier then
      match remaining with
      | first :: _ => accId first
      | [] => .null
    else accounts.selectedAccount
  { accounts := remaining, selectedAccount := selected }

/-- The body of `selectAccount` after `loadAccounts()`: `none` when no account has
the identifier (nothing is saved), otherwise the account returned, with its
refreshed `lastUsed`, and the store handed to `saveAccounts`. -/
def selectAccountIn (accounts : Store) (now : Nat → Int) (identifier : JsVal) :
    Option (Obj × Store) :=
  match findIndex (fun acc => decide (accId acc = identifier)) accounts.accounts with
  | some i =>
      let account := (accounts.accounts.getD i []).set "lastUsed" (.num (now 0))
      some (account, { accounts := accounts.accounts.set i account,
                       selectedAccount := identifier })
  | none => none

/-! ## The credential cipher (`src/accounts.js`, the definitions in effect)

`accounts.js` declares `encrypt` and `decrypt` twice; function declarations
are hoisted and the later declaration of a name replaces the earlier one, so
the IV-based pair at the end of the file is the pair every caller runs. -/

/-- A byte of a Node `Buffer`. -/
abbrev Byte := Fin 256

/-- The result of `crypto.randomBytes(IV_LENGTH)`: sixteen bytes. -/
abbrev IV := { l : List Byte // l.length = 16 }

/-- The Node primitives the cipher is built from. They are not code of this
repository, so they are parameters: `sha256` is
`crypto.createHash("sha256").update(·).digest()`, `utf8Encode`/`utf8Decode` the
`"utf8"` string codec, `aesCbcEncrypt key iv` the bytes produced by
`createCipheriv("aes-256-cbc", key, iv)` over `update` and `final`, and
`aesCbcDecrypt key iv` those of `createDecipheriv`, `none` when `final` throws. -/
structure Platform where
  sha256 : List Byte → List Byte
  utf8Encode : String → List Byte
  utf8Decode : List Byte → String
  aesCbcEncrypt : List Byte → List Byte → List Byte → List Byte
  aesCbcDecrypt : List Byte → List Byte → List Byte → Option (List Byte)

/-- What the cipher relies on: a digest has 32 bytes, decoding undoes encoding of
(well-formed) text, and deciphering with the key and IV of the encryption
returns the plaintext. -/
def Platform.Lawful (P : Platform) : Prop :=
  (∀ m, (P.sha256 m).length = 32) ∧
  (∀ s, P.utf8Decode (P.utf8Encode s) = s) ∧
  (∀ key iv plain, key.length = 32 → iv.length = 16 →
    P.aesCbcDecrypt key iv (P.aesCbcEncrypt key iv plain) = some plain)

/-- The constant `ENCRYPTION_KEY`. -/
def ENCRYPTION_KEY : String := "voxel-launcher-secure-key-2024"

/-- The constant `IV_LENGTH`. -/
def IV_LENGTH : Nat := 16

/-- The function `getKey()`: the SHA-256 digest of the passphrase. -/
def getKey (P : Platform) : List Byte := P.sha256 (P.utf8Encode ENCRYPTION_KEY)

/-- The lower-case hexadecimal digit of a value below 16. -/
def hexDigit (n : Nat) : Char :=
  if n < 10 then Char.ofNat (48 + n) else Char.ofNat (87 + n)

/-- The value of a hexadecimal digit, of either case. -/
def hexValue (c : Char) : Option Nat :=
  let n := c.toNat
  if 48 ≤ n ∧ n ≤ 57 then some (n - 48)
  else if 97 ≤ n ∧ n ≤ 102 then some (n - 87)
  else if 65 ≤ n ∧ n ≤ 70 then some (n - 55)
  else none

/-- The conversion `buf.toString("hex")`: two lower-case digits per byte. -/
def hexEncode : List Byte → List Char
  | [] => []
  | b :: rest => hexDigit (b.val / 16) :: hexDigit (b.val % 16) :: hexEncode rest

/-- The conversion `Buffer.from(s, "hex")` and the `"hex"` input encoding: pairs of digits are
decoded from the left and decoding stops at the first pair that is not two
hexadecimal digits (a trailing single character is dropped). -/
def hexDecode : List Char → List Byte
  | c₁ :: c₂ :: rest =>
      match hexValue c₁, hexValue c₂ with
      | some h, some l => Fin.ofNat (16 * h + l) :: hexDecode rest
      | _, _ => []
  | _ => []

/-- The call `s.split(":")` on the characters of a string: the fields between colons,
always at least one. -/
def splitColon : List Char → List (List Char)
  | [] => [[]]
  | c :: rest =>
      if c = ':' then [] :: splitColon rest
      else
        match splitColon rest with
        | field :: fields => (c :: field) :: fields
        | [] => [[c]]

/-- The `length` of a JavaScript string: the number of UTF-16 code units, two for
a character outside the Basic Multilingual Plane. -/
def jsLength (s : List Char) : Nat :=
  (s.map (fun c => if c.toNat < 65536 then 1 else 2)).sum

/-- The function `encrypt(text)` with the IV drawn by `crypto.randomBytes(IV_LENGTH)` as an
argument. `none` stands for a thrown exception: `createCipheriv` rejects a key
that is not 32 bytes long, `cipher.update(text, "utf8", "hex")` a `text` that is
not a string. -/
def encrypt (P : Platform) (iv : IV) (text : JsVal) : Option String :=
  match text with
  | .str t =>
      if (getKey P).length = 32 then
        let encrypted := hexEncode (P.aesCbcEncrypt (getKey P) iv.val (P.utf8Encode t))
        some ⟨hexEncode iv.val ++ ':' :: encrypted⟩
      else none
  | _ => none

/-- The function `decrypt(encrypted)`. Every exception is caught by the `try`/`catch` around
the whole body and becomes `null`: `encrypted.split` on a value that is not a
string, `createDecipheriv` on a key that is not 32 or an IV that is not 16 bytes
long, `decipher.update` on an `undefined` second field or on a hex string of odd
length, and `decipher.final` on bad ciphertext. Only the first two fields of
the split are read. -/
def decrypt (P : Platform) (encrypted : JsVal) : JsVal :=
  match encrypted with
  | .str e =>
      match splitColon e.data with
      | ivHex :: fields =>
          let iv := hexDecode ivHex
          if (getKey P).length = 32 ∧ iv.length = IV_LENGTH then
            match fields with
            | data :: _ =>
                if jsLength data % 2 = 0 then
                  match P.aesCbcDecrypt (getKey P) iv (hexDecode data) with
                  | some plain => .str (P.utf8Decode plain)
                  | none => .null
                else .null
            | [] => .null
          else .null
      | [] => .null
  | _ => .null

/-! ## Thrown values -/

/-- What the chain reads of an HTTP response: `response.status` and
`response.data`, `none` when `response.data` is `undefined`; a body that has
none of the properties read is an object without them. -/
structure HttpResponse where
  status : Int
  data : Option Obj
  deriving DecidableEq, Repr

/-- The error a request of `axios` rejects with: its message and `error.response`,
`none` when no response was received. -/
structure RequestError where
  message : String
  response : Option HttpResponse
  deriving DecidableEq, Repr

/-- A value thrown: the error of a request as `axios` made it, an `Error`
constructed with `new Error(message)`, or a `TypeError` of the engine (reading a
property of `undefined` or `null`, calling what is not a function). -/
inductive Thrown where
  | request (error : RequestError) : Thrown
  | error (message : String) : Thrown
  | typeError (message : String) : Thrown
  deriving DecidableEq, Repr

/-! ## The accounts file -/

/-- The file `accounts.json`: absent; present with content on which something
inside the `try` of `loadAccounts` throws (reading the file, `JSON.parse`, the
decrypting `map`); holding the document of a store; or holding JSON that parses
to a value which has no list of accounts: its property `accounts` reads as the
primitive value `accounts` (`undefined` when there is no such property, as in
the file `{}`) and its property `selectedAccount` as `selectedAccount`. -/
inductive Disk where
  | absent : Disk
  | corrupt : Disk
  | file (doc : Store) : Disk
  | noAccounts (accounts selectedAccount : JsVal) : Disk
  deriving DecidableEq, Repr

/-- The value `loadAccounts()` returns: a store, or the parsed document as it is
when its property `accounts` is falsy. -/
inductive Loaded where
  | store (accounts : Store) : Loaded
  | noAccounts (accounts selectedAccount : JsVal) : Loaded
  deriving DecidableEq, Repr

/-- What the operations of one call read from their surroundings: the successive
readings of `Date.now()`, the successive results of `crypto.randomBytes(16)`
(account number `i` of a save draws `ivs (2 * i)` for its access token and
`ivs (2 * i + 1)` for its refresh token), and whether the directory and file
can be written. -/
structure Env where
  now : Nat → Int
  ivs : Nat → IV
  writable : Bool

/-- The effect of `JSON.stringify` followed by `JSON.parse` on a record: properties whose value
is `undefined` are not written. -/
def jsonObj (o : Obj) : Obj := o.filter (fun kv => decide (o.get kv.1 ≠ JsVal.undefined))

/-- The callback of `map` in `loadAccounts`. -/
def decryptAccount (P : Platform) (account : Obj) : Obj :=
  if account.get "type" = .str "microsoft" ∧ (account.get "accessToken").truthy then
    let account := account.set "accessToken" (decrypt P (account.get "accessToken"))
    if (account.get "refreshToken").truthy then
      account.set "refreshToken" (decrypt P (account.get "refreshToken"))
    else account
  else account

/-- The function `loadAccounts()`: the default store when the file is absent or
something throws inside the `try`; otherwise the parsed document, with the
tokens of its accounts decrypted `if (parsed.accounts)`, and as it is when
`parsed.accounts` is falsy. A truthy primitive has no `map`: the call throws and
the `catch` returns the default store. -/
def loadAccounts (P : Platform) : Disk → Loaded
  | .absent => .store Store.empty
  | .corrupt => .store Store.empty
  | .file parsed =>
      .store { accounts := parsed.accounts.map (decryptAccount P),
               selectedAccount := parsed.selectedAccount }
  | .noAccounts accounts selectedAccount =>
      if accounts.truthy then .store Store.empty
      else .noAccounts accounts selectedAccount

/-- The callback of `map` in `saveAccounts` on a copy of the account; `none` when
`encrypt` throws. -/
def encryptAccount (P : Platform) (ivAccess ivRefresh : IV) (account : Obj) : Option Obj :=
  if account.get "type" = .str "microsoft" ∧ (account.get "accessToken").truthy then
    match encrypt P ivAccess (account.get "accessToken") with
    | none => none
    | some access =>
        let acc := account.set "accessToken" (.str access)
        if (acc.get "refreshToken").truthy then
          match encrypt P ivRefresh (acc.get "refreshToken") with
          | none => none
          | some refresh => some (acc.set "refreshToken" (.str refresh))
        else some acc
  else some account

/-- The `map` of `saveAccounts` over the accounts from position `i` on. -/
def encryptAccounts (P : Platform) (ivs : Nat → IV) : Nat → List Obj → Option (List Obj)
  | _, [] => some []
  | i, account :: rest =>
      match encryptAccount P (ivs (2 * i)) (ivs (2 * i + 1)) account,
          encryptAccounts P ivs (i + 1) rest with
      | some acc, some accs => some (acc :: accs)
      | _, _ => none

/-- The document `saveAccounts(accountsData)` hands to `fs.writeFileSync`, as
`JSON.parse` reads it back; `none` when `encrypt` throws. -/
def documentToSave (P : Platform) (ivs : Nat → IV) (accountsData : Store) : Option Store :=
  match encryptAccounts P ivs 0 accountsData.accounts with
  | some accounts =>
      some { accounts := accounts.map jsonObj,
             selectedAccount := accountsData.selectedAccount }
  | none => none

/-- The function `saveAccounts(accountsData)`: the boolean it returns and the file afterwards.
An exception (the directory or file cannot be written, `encrypt` throws) is
caught, nothing is written and `false` is returned. -/
def saveAccounts (P : Platform) (env : Env) (disk : Disk) (accountsData : Store) :
    Bool × Disk :=
  if env.writable then
    match documentToSave P env.ivs accountsData with
    | some doc => (true, .file doc)
    | none => (false, disk)
  else (false, disk)

/-- The `TypeError` of the call `accounts.accounts.name(...)` when
`accounts.accounts` is the falsy value `accounts`: nothing can be read of
`undefined` and `null`, and the other primitives have no such method. -/
def noSuchMethod (accounts : JsVal) (name : String) : Thrown :=
  match accounts with
  | .undefined =>
      .typeError ("Cannot read properties of undefined (reading \x27" ++ name ++ "\x27)")
  | .null => .typeError ("Cannot read properties of null (reading \x27" ++ name ++ "\x27)")
  | _ => .typeError ("accounts.accounts." ++ name ++ " is not a function")

/-- The function `addAccount(accountData)`: the store returned and the file afterwards, or
the `TypeError` of `accounts.accounts.findIndex` when what was loaded has no
list of accounts. Nothing catches it and nothing is saved. -/
def addAccount (P : Platform) (env : Env) (disk : Disk) (accountData : Obj) :
    Except Thrown (Store × Disk) :=
  match loadAccounts P disk with
  | .store loaded =>
      let accounts := addAccountTo loaded env.now accountData
      .ok (accounts, (saveAccounts P env disk accounts).2)
  | .noAccounts accounts _ => .error (noSuchMethod accounts "findIndex")

/-- The function `removeAccount(identifier)`: the store returned and the file afterwards,
or the `TypeError` of `accounts.accounts.filter` when what was loaded has no
list of accounts. -/
def removeAccount (P : Platform) (env : Env) (disk : Disk) (identifier : JsVal) :
    Except Thrown (Store × Disk) :=
  match loadAccounts P disk with
  | .store loaded =>
      let accounts := removeAccountFrom loaded identifier
      .ok (accounts, (saveAccounts P env disk accounts).2)
  | .noAccounts accounts _ => .error (noSuchMethod accounts "filter")

/-- The function `selectAccount(identifier)`: the account returned (`none` for `null`) and the
file afterwards, or the `TypeError` of `accounts.accounts.find` when what was
loaded has no list of accounts. -/
def selectAccount (P : Platform) (env : Env) (disk : Disk) (identifier : JsVal) :
    Except Thrown (Option Obj × Disk) :=
  match loadAccounts P disk with
  | .store loaded =>
      match selectAccountIn loaded env.now identifier with
      | some (account, accounts) => .ok (some account, (saveAccounts P env disk accounts).2)
      | none => .ok (none, disk)
  | .noAccounts accounts _ => .error (noSuchMethod accounts "find")

/-- The function `getAllAccounts()`: `accounts.accounts || []`. -/
def getAllAccounts (P : Platform) (disk : Disk) : List Obj :=
  match loadAccounts P disk with
  | .store loaded => loaded.accounts
  | .noAccounts _ _ => []

/-- Whether a character is removed by `String.prototype.trim`: the white space and
line terminator code points of ECMAScript. -/
def isTrimmed (c : Char) : Bool :=
  let n := c.toNat
  (9 ≤ n ∧ n ≤ 13) ∨ n = 32 ∨ n = 160 ∨ n = 5760 ∨ (8192 ≤ n ∧ n ≤ 8202) ∨
    n = 8232 ∨ n = 8233 ∨ n = 8239 ∨ n = 8287 ∨ n = 12288 ∨ n = 65279

/-- The call `s.trim()` on the characters of a string. -/
def trim (s : List Char) : List Char :=
  ((s.dropWhile isTrimmed).reverse.dropWhile isTrimmed).reverse

/-- The function `addOfflineAccount(username)` for a string `username`: the `Error` of a
name that is refused, or what `addAccount` returns or throws. -/
def addOfflineAccount (P : Platform) (env : Env) (disk : Disk) (username : String) :
    Except Thrown (Store × Disk) :=
  if username = "" ∨ jsLength (trim username.data) = 0 then
    .error (.error "Username cannot be empty")
  else if jsLength username.data > 16 then
    .error (.error "Username must be 16 characters or less")
  else
    let accountData : Obj :=
      [("type", .str "offline"), ("username", .str ⟨trim username.data⟩),
       ("uuid", .null), ("accessToken", .null), ("refreshToken", .null)]
    addAccount P env disk accountData

/-! ## The interactive login (`src/msauth.js`) -/

/-- The call `s.startsWith(t)` on characters. -/
def startsWith : List Char → List Char → Bool
  | _, [] => true
  | [], _ :: _ => false
  | c :: s, d :: t => decide (c = d) && startsWith s t

/-- The call `s.includes(t)` on characters. -/
def includes : List Char → List Char → Bool
  | [], t => t.isEmpty
  | c :: s, t => startsWith (c :: s) t || includes s t

/-- What `handleUrl` reads of a parsed URL: `searchParams.get("code")` and
`searchParams.get("error")`, `none` for `null`. -/
structure SearchParams where
  code : Option String
  error : Option String
  deriving DecidableEq, Repr

/-- The constructor `new URL(url)` as `handleUrl` uses it: the search parameters,
or the message of the `TypeError` it throws. It is a platform function, so the
operations below take it as the parameter `newURL`. -/
abbrev UrlReader := String → Except String SearchParams

/-- Truthiness of the result of `searchParams.get`: a non-empty string. -/
def present : Option String → Bool
  | some v => decide (v ≠ "")
  | none => false

/-- How the promise of `getMicrosoftAuthCode` is settled: `resolve({ code, verifier })`
or `reject(new Error(message))`. -/
inductive Outcome where
  | resolved (code verifier : String) : Outcome
  | rejected (message : String) : Outcome
  deriving DecidableEq, Repr

/-- The state of one interactive acquisition, that is of one run of the promise
executor in `getMicrosoftAuthCode`: the PKCE verifier, the local flag `resolved`,
the calls of `resolve` and `reject` made so far (oldest first), whether the
window is destroyed, and how often `authWindow.close()` was called. -/
structure Session where
  verifier : String
  resolved : Bool
  settlements : List Outcome
  destroyed : Bool
  closeCalls : Nat
  deriving DecidableEq, Repr

/-- The events the executor subscribes to. The four that carry a URL all run
`handleUrl` on it. -/
inductive WindowEvent where
  | willRedirect (url : String) : WindowEvent
  | didNavigate (url : String) : WindowEvent
  | willNavigate (url : String) : WindowEvent
  | didFailLoad (validatedURL : String) : WindowEvent
  | closed : WindowEvent
  deriving DecidableEq, Repr

/-- The state of the module: the flag `authInProgress` and the acquisitions
started so far, in the order of their windows. -/
structure AuthState where
  authInProgress : Bool
  sessions : List Session
  deriving DecidableEq, Repr

/-- The module as loaded: `let authInProgress = false`, no window. -/
def AuthState.initial : AuthState := { authInProgress := false, sessions := [] }

/-- The part of the redirect target `handleUrl` looks for. -/
def redirectTarget : String := "login.live.com/oauth20_desktop.srf"

/-- The statement `if (!authWindow.isDestroyed()) authWindow.close()`. -/
def closeWindow (s : Session) : Session :=
  if s.destroyed then s else { s with closeCalls := s.closeCalls + 1 }

/-- The three settling branches of `handleUrl` share their first statements:
`resolved = true; authInProgress = false;`, the closing of the window, and then
the call of `resolve` or `reject`. The pair is the new value of
`authInProgress` and the new session. -/
def settle (s : Session) (o : Outcome) : Bool × Session :=
  (false, { closeWindow s with resolved := true, settlements := s.settlements ++ [o] })

/-- The closure `handleUrl(url)` on the flag `authInProgress` and the session. -/
def handleUrl (newURL : UrlReader) (authInProgress : Bool) (s : Session) (url : String) :
    Bool × Session :=
  if s.resolved then (authInProgress, s)
  else if includes url.data redirectTarget.data then
    match newURL url with
    | .ok urlObj =>
        if present urlObj.code then
          settle s (.resolved (urlObj.code.getD "") s.verifier)
        else if present urlObj.error then
          settle s (.rejected ("Auth error: " ++ urlObj.error.getD ""))
        else (authInProgress, s)
    | .error err => settle s (.rejected err)
  else (authInProgress, s)

/-- The listener of one window event. `closed` is emitted once the window is
destroyed; its listener rejects when nothing has settled the promise yet. -/
def onWindowEvent (newURL : UrlReader) (authInProgress : Bool) (s : Session) :
    WindowEvent → Bool × Session
  | .willRedirect url => handleUrl newURL authInProgress s url
  | .didNavigate url => handleUrl newURL authInProgress s url
  | .willNavigate url => handleUrl newURL authInProgress s url
  | .didFailLoad validatedURL => handleUrl newURL authInProgress s validatedURL
  | .closed =>
      let s := { s with destroyed := true }
      if s.resolved then (authInProgress, s)
      else (false, { s with resolved := true,
                            settlements := s.settlements ++
                              [.rejected "Authentication window closed"] })

/-- One acquisition under a sequence of events, from the left. -/
def onWindowEvents (newURL : UrlReader) (authInProgress : Bool) (s : Session) :
    List WindowEvent → Bool × Session
  | [] => (authInProgress, s)
  | e :: rest =>
      let r := onWindowEvent newURL authInProgress s e
      onWindowEvents newURL r.1 r.2 rest

/-- The session the executor starts with: `let resolved = false`, a fresh window. -/
def Session.fresh (verifier : String) : Session :=
  { verifier := verifier, resolved := false, settlements := [], destroyed := false,
    closeCalls := 0 }

/-- The state of the promise: the first call of `resolve` or `reject` settles it,
later calls have no effect. -/
def Session.outcome (s : Session) : Option Outcome := s.settlements.head?

/-- The function `getMicrosoftAuthCode()` up to the return of the promise, with the verifier
drawn by `generateCodeChallenge` as an argument: it throws when the flag is set,
otherwise sets it and opens a window. -/
def getMicrosoftAuthCode (st : AuthState) (verifier : String) : Except String AuthState :=
  if st.authInProgress then .error "Authentication already in progress"
  else .ok { authInProgress := true, sessions := st.sessions ++ [Session.fresh verifier] }

/-- What a call of `authenticateWithMicrosoft` does before it first waits for an
event: either a window is open, or `getMicrosoftAuthCode` threw and the `catch`
ran. -/
inductive LoginStart where
  | windowOpened (index : Nat) : LoginStart
  | failed (message : String) : LoginStart
  deriving DecidableEq, Repr

/-- The start of `authenticateWithMicrosoft()`: the call of `getMicrosoftAuthCode`
inside the `try`; when that throws, the `catch` sets `authInProgress = false`
and rethrows. -/
def authenticateWithMicrosoft (st : AuthState) (verifier : String) :
    LoginStart × AuthState :=
  match getMicrosoftAuthCode st verifier with
  | .ok st' => (.windowOpened st.sessions.length, st')
  | .error message => (.failed message, { st with authInProgress := false })

/-- What can happen to the module: a call of `authenticateWithMicrosoft`, an event
of the window of acquisition `index`, and the failure of a later stage (token
exchange, Xbox Live, XSTS, Minecraft, profile) of the call whose acquisition
`index` produced a code. -/
inductive Action where
  | login (verifier : String) : Action
  | window (index : Nat) (event : WindowEvent) : Action
  | stageFailed (index : Nat) : Action
  deriving DecidableEq, Repr

/-- One step of the module. An event of a window runs its listener; when that
rejects the promise the awaiting `authenticateWithMicrosoft` enters its `catch`
(`authInProgress = false`). A failed later stage enters the same `catch`. The
first component is what a `login` action reports. -/
def step (newURL : UrlReader) (st : AuthState) : Action → Option LoginStart × AuthState
  | .login verifier =>
      let r := authenticateWithMicrosoft st verifier
      (some r.1, r.2)
  | .window index event =>
      match st.sessions.get? index with
      | some s =>
          let r := onWindowEvent newURL st.authInProgress s event
          let rejectedNow : Bool :=
            s.settlements.isEmpty &&
              (match r.2.outcome with
               | some (.rejected _) => true
               | _ => false)
          (none, { authInProgress := if rejectedNow then false else r.1,
                   sessions := st.sessions.set index r.2 })
      | none => (none, st)
  | .stageFailed index =>
      match st.sessions.get? index with
      | some s =>
          match s.outcome with
          | some (.resolved _ _) => (none, { st with authInProgress := false })
          | _ => (none, st)
      | none => (none, st)

/-- A run of the module: the reports of the `login` actions in order, and the
final state. -/
def run (newURL : UrlReader) (st : AuthState) : List Action → List LoginStart × AuthState
  | [] => ([], st)
  | a :: rest =>
      let r := step newURL st a
      let rs := run newURL r.2 rest
      (match r.1 with
       | some report => report :: rs.1
       | none => rs.1, rs.2)

/-- The acquisitions in flight: the sessions whose promise is not settled. -/
def inFlight (st : AuthState) : List Session :=
  st.sessions.filter (fun s => s.settlements.isEmpty)

/-! ## The federation chain (`src/msauth.js`) -/

/-- The outcome of one request: the response, or the error `axios` rejects with. -/
abbrev HttpResult := Except RequestError HttpResponse

/-- The text of a value inside a template literal. -/
def JsVal.toText : JsVal → String
  | .undefined => "undefined"
  | .null => "null"
  | .bool true => "true"
  | .bool false => "false"
  | .num n => toString n
  | .str s => s

/-- Property read `data.k` on the body of a response: a `TypeError` when the body
is `undefined`. -/
def readProperty (data : Option Obj) (k : String) : Except Thrown JsVal :=
  match data with
  | some o => .ok (o.get k)
  | none => .error (.typeError "Cannot read properties of undefined")

/-- The function `getMicrosoftToken(code, verifier)` on the outcome of its request:
`response.data`, or, when a response came with the failure, an `Error` built from
`error_description` or `error`, or else the error itself. -/
def getMicrosoftToken (result : HttpResult) : Except Thrown (Option Obj) :=
  match result with
  | .ok response => .ok response.data
  | .error error =>
      match error.response with
      | some response =>
          match response.data with
          | some data =>
              .error (.error ("Token exchange failed: " ++
                (if (data.get "error_description").truthy then data.get "error_description"
                 else data.get "error").toText))
          | none => .error (.typeError "Cannot read properties of undefined")
      | none => .error (.request error)

/-- The function `authenticateXboxLive(msAccessToken)` on the outcome of its
request: `response.data`, or the error rethrown. -/
def authenticateXboxLive (result : HttpResult) : Except Thrown (Option Obj) :=
  match result with
  | .ok response => .ok response.data
  | .error error => .error (.request error)

/-- The value of `error.response?.data?.XErr`. -/
def xErrOf (error : RequestError) : JsVal :=
  match error.response with
  | some response =>
      match response.data with
      | some data => data.get "XErr"
      | none => .undefined
  | none => .undefined

/-- The function `authenticateXSTS(xblToken)` on the outcome of its request:
`response.data`, or, in the `catch`, one of two constructed errors for the two
known values of a truthy `XErr`, or else the error rethrown. -/
def authenticateXSTS (result : HttpResult) : Except Thrown (Option Obj) :=
  match result with
  | .ok response => .ok response.data
  | .error error =>
      if (xErrOf error).truthy then
        if xErrOf error = .num 2148916233 then
          .error (.error
            "This Microsoft account doesn\x27t have an Xbox account. Create one at xbox.com")
        else if xErrOf error = .num 2148916238 then
          .error (.error "This is a child account. It must be added to a Family by an adult")
        else .error (.request error)
      else .error (.request error)

/-- The function `authenticateMinecraft(xstsToken, userHash)` on the outcome of its
request: `response.data`, or the error rethrown. -/
def authenticateMinecraft (result : HttpResult) : Except Thrown (Option Obj) :=
  match result with
  | .ok response => .ok response.data
  | .error error => .error (.request error)

/-- The function `getMinecraftProfile(mcAccessToken)` on the outcome of its
request: `response.data` (reading `response.data.name` for the log inside the
`try`), an `Error` for the status 404, or else the error rethrown. -/
def getMinecraftProfile (result : HttpResult) : Except Thrown (Option Obj) :=
  match result with
  | .ok response =>
      match response.data with
      | some data => .ok (some data)
      | none => .error (.typeError "Cannot read properties of undefined")
  | .error error =>
      match error.response with
      | some response =>
          if response.status = 404 then
            .error (.error "This Microsoft account doesn\x27t own Minecraft Java Edition")
          else .error (.request error)
      | none => .error (.request error)

/-- The function `checkGameOwnership(mcAccessToken)` on the outcome of its request,
of which `response.data.items` is read (`none` when there is no such array):
whether an item is named `product_minecraft` or `game_minecraft`; `false` on
every failure. -/
def checkGameOwnership (result : Except RequestError (Option (List Obj))) : Bool :=
  match result with
  | .ok (some items) =>
      items.any (fun item =>
        decide (item.get "name" = .str "product_minecraft") ||
          decide (item.get "name" = .str "game_minecraft"))
  | .ok none => false
  | .error _ => false

/-- What the servers answer to the requests of one chain: the token endpoint, Xbox
Live (with the value of `DisplayClaims.xui[0].uhs` in its body, `none` when
that path does not exist), XSTS, the Minecraft login, the profile and the
entitlements. -/
structure Network where
  token : HttpResult
  xboxLive : HttpResult
  userHash : Option JsVal
  xsts : HttpResult
  minecraft : HttpResult
  profile : HttpResult
  entitlements : Except RequestError (Option (List Obj))

/-- The number a value stands for in a product, `none` where that is not an
integer: `undefined` gives `NaN`, and the conversion of a string is not followed
by this model. -/
def toNumber : JsVal → Option Int
  | .num n => some n
  | .bool true => some 1
  | .bool false => some 0
  | .null => some 0
  | .undefined => none
  | .str _ => none

/-- The expression `Date.now() + (msToken.expires_in || 3600) * 1000`, with the
reading of the clock as `now`. -/
def expiresAt (now : Int) (expires_in : JsVal) : Option Int :=
  (toNumber (if expires_in.truthy then expires_in else .num 3600)).map
    (fun seconds => now + seconds * 1000)

/-- The object a login or a refresh returns; `ownsGame` is `undefined` for a
refresh, `expiresAt` is `none` where the sum is not an integer. -/
structure AuthResult where
  accessToken : JsVal
  refreshToken : JsVal
  username : JsVal
  uuid : JsVal
  ownsGame : JsVal
  expiresAt : Option Int
  deriving DecidableEq, Repr

/-- The stages of `authenticateWithMicrosoft()` that follow the acquisition of the
code, in the order of the source, up to the object returned. -/
def loginChain (net : Network) (now : Int) : Except Thrown AuthResult := do
  let msToken ← getMicrosoftToken net.token
  let _msAccessToken ← readProperty msToken "access_token"
  let xblAuth ← authenticateXboxLive net.xboxLive
  let _xblToken ← readProperty xblAuth "Token"
  let xstsAuth ← authenticateXSTS net.xsts
  let _xstsToken ← readProperty xstsAuth "Token"
  let _userHash ← match xblAuth, net.userHash with
    | some _, some uhs => Except.ok uhs
    | _, _ => Except.error (Thrown.typeError "Cannot read properties of undefined")
  let mcAuth ← authenticateMinecraft net.minecraft
  let mcAccessToken ← readProperty mcAuth "access_token"
  let profile ← getMinecraftProfile net.profile
  let ownsGame := checkGameOwnership net.entitlements
  let refreshToken ← readProperty msToken "refresh_token"
  let username ← readProperty profile "name"
  let uuid ← readProperty profile "id"
  let expires_in ← readProperty msToken "expires_in"
  pure { accessToken := mcAccessToken, refreshToken := refreshToken, username := username,
         uuid := uuid, ownsGame := .bool ownsGame, expiresAt := expiresAt now expires_in }

/-- The function `authenticateWithMicrosoft()` from the point where
`await getMicrosoftAuthCode()` has returned a code: the chain inside the `try`;
when a stage throws, the `catch` sets `authInProgress = false` and rethrows the
same value. -/
def finishLogin (net : Network) (now : Int) (st : AuthState) :
    Except Thrown AuthResult × AuthState :=
  match loginChain net now with
  | .ok result => (.ok result, st)
  | .error thrown => (.error thrown, { st with authInProgress := false })

/-- The body of the `try` in `refreshAccessToken(refreshToken)`: the request to the
token endpoint, then the stages of the login but for the entitlements. -/
def refreshChain (net : Network) (now : Int) : Except Thrown AuthResult := do
  let msToken ← match net.token with
    | .ok response => Except.ok response.data
    | .error error => Except.error (Thrown.request error)
  let _msAccessToken ← readProperty msToken "access_token"
  let xblAuth ← authenticateXboxLive net.xboxLive
  let _xblToken ← readProperty xblAuth "Token"
  let xstsAuth ← authenticateXSTS net.xsts
  let _xstsToken ← readProperty xstsAuth "Token"
  let _userHash ← match xblAuth, net.userHash with
    | some _, some uhs => Except.ok uhs
    | _, _ => Except.error (Thrown.typeError "Cannot read properties of undefined")
  let mcAuth ← authenticateMinecraft net.minecraft
  let mcAccessToken ← readProperty mcAuth "access_token"
  let profile ← getMinecraftProfile net.profile
  let refreshToken ← readProperty msToken "refresh_token"
  let username ← readProperty profile "name"
  let uuid ← readProperty profile "id"
  let expires_in ← readProperty msToken "expires_in"
  pure { accessToken := mcAccessToken, refreshToken := refreshToken, username := username,
         uuid := uuid, ownsGame := .undefined, expiresAt := expiresAt now expires_in }

/-- The function `refreshAccessToken(refreshToken)`: whatever is thrown inside the
`try` is replaced by one `Error`. -/
def refreshAccessToken (net : Network) (now : Int) : Except Thrown AuthResult :=
  match refreshChain net now with
  | .ok result => .ok result
  | .error _ => .error (.error "Token refresh failed. Please log in again.")

/-! ## Token expiry (`src/msauth.js`) -/

/-- The function `isTokenExpired(expiresAt)`: `Date.now() >= expiresAt - 300000`, with the
reading of the clock as the argument `now`. -/
def isTokenExpired (now expiresAt : Int) : Bool :=
  decide (now ≥ expiresAt - 300000)

/-! ## Sample surroundings

Concrete values for the parameters, on which the definitions above can be
evaluated. -/

/-- The fields of a list of characters between occurrences of `sep`. -/
def sampleURL.fields (sep : Char) : List Char → List (List Char)
  | [] => [[]]
  | c :: rest =>
      if c = sep then [] :: sampleURL.fields sep rest
      else
        match sampleURL.fields sep rest with
        | field :: more => (c :: field) :: more
        | [] => [[c]]

/-- Whether the characters up to the first `:` form a scheme. -/
def sampleURL.hasScheme (s : List Char) : Bool :=
  match s with
  | [] => false
  | c :: rest =>
      c.isAlpha &&
        (match rest.span (fun x => x.isAlphanum || x = '+' || x = '-' || x = '.') with
         | (_, d :: _) => decide (d = ':')
         | (_, []) => false)

/-- The first value of the parameter `name` in a query string. -/
def sampleURL.param (name : String) (query : List Char) : Option String :=
  ((sampleURL.fields '&' query).filterMap (fun field =>
    match field.span (fun x => x ≠ '=') with
    | (key, value) =>
        if key = name.data ∧ key ≠ [] then some (String.mk (value.drop 1)) else none)).head?

/-- A reading of `new URL` on which examples are evaluated: a string without a
scheme (a letter, then letters, digits, `+`, `-` or `.`, then `:`) is rejected
with `Invalid URL`, as `new URL` rejects a relative reference given no base; the
parameters are the `name=value` fields, separated by `&`, of the part between
the first `?` and the first `#`, without percent-decoding. -/
def sampleURL : UrlReader := fun url =>
  if sampleURL.hasScheme url.data then
    let afterPath := (url.data.dropWhile (fun x => x ≠ '?')).drop 1
    let query := afterPath.takeWhile (fun x => x ≠ '#')
    .ok { code := sampleURL.param "code" query, error := sampleURL.param "error" query }
  else .error "Invalid URL"

/-- Three bytes per character, most significant first: the text codec of
`samplePlatform`. -/
def sampleEncodeChars : List Char → List Byte
  | [] => []
  | c :: rest =>
      Fin.ofNat (c.toNat / 65536) :: Fin.ofNat (c.toNat / 256 % 256) ::
        Fin.ofNat (c.toNat % 256) :: sampleEncodeChars rest

/-- The characters of a list of bytes taken three at a time. -/
def sampleDecodeChars : List Byte → List Char
  | a :: b :: c :: rest =>
      Char.ofNat (65536 * a.val + 256 * b.val + c.val) :: sampleDecodeChars rest
  | _ => []

/-- The byte `samplePlatform` adds to every byte of the plaintext. -/
def sampleMask (key iv : List Byte) : Byte := key.headD 0 + iv.headD 0 + 1

/-- A small lawful platform: a 32-byte digest, a fixed-width text codec, and a
cipher that shifts every byte by a value depending on key and IV and appends an
end marker, which deciphering checks and removes. -/
def samplePlatform : Platform where
  sha256 := fun m => (List.range 32).map (fun i => Fin.ofNat (i + m.length))
  utf8Encode := fun s => sampleEncodeChars s.data
  utf8Decode := fun bytes => String.mk (sampleDecodeChars bytes)
  aesCbcEncrypt := fun key iv plain => plain.map (· + sampleMask key iv) ++ [1]
  aesCbcDecrypt := fun key iv cipher =>
    if cipher.getLast? = some 1 then some (cipher.dropLast.map (· - sampleMask key iv))
    else none

/-- Sixteen bytes `b`, `b + 1`, ... as an IV. -/
def sampleIV (b : Nat) : IV :=
  ⟨(List.range 16).map (fun i => Fin.ofNat (b + i)), by simp⟩

/-- Surroundings in which the clock reads `t`, then `t + 1`, ..., the disk is
writable and the `k`-th IV is `sampleIV k`. -/
def sampleEnv (t : Int) : Env :=
  { now := fun k => t + k, ivs := sampleIV, writable := true }

/-- A store of an offline account, selected, and a microsoft account. -/
def sampleTwoAccounts : Store :=
  { accounts := [[("type", .str "offline"), ("username", .str "Steve"), ("uuid", .null)],
                 [("type", .str "microsoft"), ("username", .str "Alex"),
                  ("uuid", .str "U1")]],
    selectedAccount := .str "Steve" }

/-! ## Predicates the properties are stated with -/

/-- The selection invariant: `selectedAccount` is `null` or the identifier of an
account of the store. -/
def SelectionValid (store : Store) : Prop :=
  store.selectedAccount = .null ∨ store.selectedAccount ∈ store.accounts.map accId

instance (store : Store) : Decidable (SelectionValid store) := by
  unfold SelectionValid; infer_instance

/-- A store of one offline account, which is the selected one. -/
def sampleOfflineStore : Store :=
  { accounts := [[("type", .str "offline"), ("username", .str "Bob"), ("uuid", .null),
                  ("accessToken", .null), ("refreshToken", .null)]],
    selectedAccount := .str "Bob" }

/-- A file holding one offline account, which is the selected one. -/
def sampleOfflineDisk : Disk := .file sampleOfflineStore

/-- The file `{}`: JSON that parses to an object without `accounts` and without
`selectedAccount`. -/
def sampleEmptyObjectDisk : Disk := .noAccounts .undefined .undefined

/-- Microsoft account data whose `uuid` is `null`. -/
def sampleNullUuidData : Obj :=
  [("type", .str "microsoft"), ("username", .str "Alice"), ("uuid", .null)]

/-- Microsoft account data as `updateMicrosoftAccount` passes it on. -/
def sampleMicrosoftData (uuid username : String) : Obj :=
  [("type", .str "microsoft"), ("accessToken", .str "mc-token"),
   ("refreshToken", .str "ms-refresh"), ("username", .str username),
   ("uuid", .str uuid), ("ownsGame", .bool true), ("expiresAt", .num 1700003600000)]

/-- Account data for uuid U1 carrying `lastUsed: 1`. -/
def sampleFirstData : Obj := sampleMicrosoftData "U1" "Alex" ++ [("lastUsed", .num 1)]

/-- Account data for uuid U1 carrying `lastUsed: 2` and a new user name. -/
def sampleSecondData : Obj := sampleMicrosoftData "U1" "Alexa" ++ [("lastUsed", .num 2)]

/-- Whether a character is a hexadecimal digit. -/
def isHexDigit (c : Char) : Bool := (hexValue c).isSome

/-- The form `<32 hex digits>:<hex ciphertext>` of a stored token: exactly two
fields around one colon, the first of 32 hexadecimal digits, the second of
hexadecimal digits only. -/
def isCipherText (s : List Char) : Bool :=
  match splitColon s with
  | [ivHex, data] => decide (ivHex.length = 32) && ivHex.all isHexDigit && data.all isHexDigit
  | _ => false

/-- The token `"secret"` as `encrypt` writes it on the sample platform, followed
by a further colon and text. -/
def sampleTrailingField : String :=
  (encrypt samplePlatform (sampleIV 0) (.str "secret")).getD "" ++ ":junk"

/-- A store with one microsoft account that has a refresh token and `null` for its
access token. -/
def sampleNoAccessToken : Store :=
  { accounts := [[("type", .str "microsoft"), ("username", .str "Alex"),
                  ("uuid", .str "U1"), ("accessToken", .null),
                  ("refreshToken", .str "ms-refresh-secret")]],
    selectedAccount := .str "U1" }

/-- The file after its access token was damaged: the first field of the stored
access token is not an IV, the refresh token is stored as `encrypt` wrote it. -/
def sampleDamagedDisk : Disk :=
  .file { accounts := [[("type", .str "microsoft"), ("username", .str "Alex"),
                        ("uuid", .str "U1"), ("accessToken", .str "garbage"),
                        ("refreshToken", .str ((encrypt samplePlatform (sampleIV 0)
                          (.str "ms-refresh-secret")).getD ""))]],
          selectedAccount := .str "U1" }

/-- What settles an unsettled acquisition, and how, as the code has it: the window
closed, or a URL holding the redirect target that carries a code, carries an
error, or cannot be parsed. -/
def decision (newURL : UrlReader) (verifier : String) : WindowEvent → Option Outcome
  | .closed => some (.rejected "Authentication window closed")
  | .willRedirect url | .didNavigate url | .willNavigate url | .didFailLoad url =>
      if includes url.data redirectTarget.data then
        match newURL url with
        | .ok urlObj =>
            if present urlObj.code then some (.resolved (urlObj.code.getD "") verifier)
            else if present urlObj.error then
              some (.rejected ("Auth error: " ++ urlObj.error.getD ""))
            else none
        | .error err => some (.rejected err)
      else none

/-- The qualifying events as the specification lists them: the window closed, a
redirect URL with a code, a redirect URL with an error. -/
def listedDecision (newURL : UrlReader) (verifier : String) : WindowEvent → Option Outcome
  | .closed => some (.rejected "Authentication window closed")
  | .willRedirect url | .didNavigate url | .willNavigate url | .didFailLoad url =>
      if includes url.data redirectTarget.data then
        match newURL url with
        | .ok urlObj =>
            if present urlObj.code then some (.resolved (urlObj.code.getD "") verifier)
            else if present urlObj.error then
              some (.rejected ("Auth error: " ++ urlObj.error.getD ""))
            else none
        | .error _ => none
      else none

/-- A navigation to a reference that holds the redirect target and has no scheme,
followed by the redirect that carries a code. -/
def sampleEvents : List WindowEvent :=
  [.willNavigate "login.live.com/oauth20_desktop.srf",
   .willRedirect "https://login.live.com/oauth20_desktop.srf?code=M.C507&lc=1033",
   .closed]

/-- A response with a JSON object as its body. -/
def sampleResponse (status : Int) (data : Obj) : HttpResponse :=
  { status := status, data := some data }

/-- The failure of the XSTS request with status 401 and the given `XErr`. -/
def sampleXstsError (xErr : JsVal) : RequestError :=
  { message := "Request failed with status code 401",
    response := some (sampleResponse 401
      [("Identity", .str "0"), ("XErr", xErr), ("Message", .str "")]) }

/-- Servers that answer every request of a chain successfully, the token endpoint
with the given `expires_in`. -/
def sampleNetwork (expires_in : JsVal) : Network :=
  { token := .ok (sampleResponse 200
      [("access_token", .str "ms-access"), ("refresh_token", .str "ms-refresh"),
       ("expires_in", expires_in)]),
    xboxLive := .ok (sampleResponse 200 [("Token", .str "xbl-token")]),
    userHash := some (.str "uhs-1"),
    xsts := .ok (sampleResponse 200 [("Token", .str "xsts-token")]),
    minecraft := .ok (sampleResponse 200 [("access_token", .str "mc-token")]),
    profile := .ok (sampleResponse 200 [("id", .str "U1"), ("name", .str "Alex")]),
    entitlements := .ok (some [[("name", .str "game_minecraft")]]) }

/-- What holds of every state the module reaches: a session has `resolved` set
exactly when its promise is settled, and while `authInProgress` is set the
acquisition started last is not settled. -/
def GuardInvariant (st : AuthState) : Prop :=
  (∀ s ∈ st.sessions, (s.resolved = false ↔ s.settlements = [])) ∧
  (st.authInProgress = true → ∃ s, st.sessions.getLast? = some s ∧ s.settlements = [])

/-- Whether a value is a string or `null`. -/
def isStringOrNull : JsVal → Bool
  | .str _ => true
  | .null => true
  | _ => false

/-- A list of entries that stands for a record as JavaScript holds it: no key
twice, no entry whose value is `undefined`. -/
def RecordLike (o : Obj) : Prop :=
  (o.map Prod.fst).Nodup ∧ ∀ kv ∈ o, kv.2 ≠ JsVal.undefined

instance (o : Obj) : Decidable (RecordLike o) := by
  unfold RecordLike; infer_instance

/-- A store of four accounts: a microsoft account with both tokens, one whose
access token is `null`, one whose access token is empty, and an offline
account. -/
def sampleMixedStore : Store :=
  { accounts :=
      [[("type", .str "microsoft"), ("username", .str "Alex"), ("uuid", .str "U1"),
        ("accessToken", .str "mc-token"), ("refreshToken", .str "ms-refresh"),
        ("expiresAt", .num 1700003600000), ("ownsGame", .bool true)],
       [("type", .str "microsoft"), ("username", .str "Kai"), ("uuid", .str "U2"),
        ("accessToken", .null), ("refreshToken", .str "ms-refresh-secret")],
       [("type", .str "microsoft"), ("username", .str "Noor"), ("uuid", .str "U3"),
        ("accessToken", .str ""), ("refreshToken", .null)],
       [("type", .str "offline"), ("username", .str "Steve"), ("uuid", .null),
        ("accessToken", .null), ("refreshToken", .null), ("addedAt", .num 1700000000000)]],
    selectedAccount := .str "U1" }

/-! # Properties -/

/-! ## Objects -/

theorem Obj.find?_append (a b : Obj) (k : String) :
    Obj.find? (a ++ b) k = (Obj.find? b k).or (Obj.find? a k) := by
  unfold Obj.find?
  rw [List.filter_append, List.getLast?_append]
  cases (List.filter (fun kv => decide (kv.1 = k)) b).getLast? <;> simp

theorem Obj.find?_set_self (o : Obj) (k : String) (v : JsVal) :
    Obj.find? (o.set k v) k = some v := by
  unfold Obj.set
  split
  · rename_i h
    unfold Obj.has Obj.find? at h
    unfold Obj.find?
    rw [List.filter_map]
    have hcomp : ((fun kv : String × JsVal => decide (kv.1 = k)) ∘
        fun kv : String × JsVal => (kv.1, if kv.1 = k then v else kv.2)) =
        fun kv => decide (kv.1 = k) := rfl
    rw [hcomp, List.getLast?_map]
    cases hl : (List.filter (fun kv : String × JsVal => decide (kv.1 = k)) o).getLast? with
    | none => simp [hl] at h
    | some kv =>
        have hm := List.mem_of_getLast?_eq_some hl
        simp at hm
        simp [hm.2]
  · rw [Obj.find?_append]; simp [Obj.find?]

theorem Obj.find?_set_other (o : Obj) (k k' : String) (v : JsVal) (hk : k ≠ k') :
    Obj.find? (o.set k v) k' = Obj.find? o k' := by
  unfold Obj.set
  split
  · unfold Obj.find?
    rw [List.filter_map]
    have hcomp : ((fun kv : String × JsVal => decide (kv.1 = k')) ∘
        fun kv : String × JsVal => (kv.1, if kv.1 = k then v else kv.2)) =
        fun kv => decide (kv.1 = k') := rfl
    rw [hcomp, List.getLast?_map]
    cases hl : (List.filter (fun kv : String × JsVal => decide (kv.1 = k')) o).getLast? with
    | none => rfl
    | some kv =>
        have hm := List.mem_of_getLast?_eq_some hl
        simp at hm
        have hne : ¬ kv.1 = k := by rw [hm.2]; exact fun e => hk e.symm
        simp [hne]
  · rw [Obj.find?_append]; simp [Obj.find?, hk]

theorem Obj.find?_spread (a b : Obj) (k : String) :
    Obj.find? (a.spread b) k = (Obj.find? b k).or (Obj.find? a k) := by
  induction b generalizing a with
  | nil => simp [Obj.spread, Obj.find?]
  | cons kv rest ih =>
      obtain ⟨k1, v1⟩ := kv
      rw [Obj.spread, ih]
      have hcons : Obj.find? ((k1, v1) :: rest) k =
          (Obj.find? rest k).or (if k1 = k then some v1 else none) := by
        have happ := Obj.find?_append [(k1, v1)] rest k
        simp only [List.singleton_append] at happ
        rw [happ]
        congr 1
        by_cases h : k1 = k <;> simp [Obj.find?, h]
      rw [hcons]
      cases Obj.find? rest k with
      | some w => simp
      | none =>
          by_cases h : k1 = k
          · subst h; simp [Obj.find?_set_self]
          · simp [h, Obj.find?_set_other _ _ _ _ h]

theorem Obj.get_set_self (o : Obj) (k : String) (v : JsVal) : (o.set k v).get k = v := by
  simp [Obj.get, Obj.find?_set_self]

theorem Obj.get_set_other (o : Obj) (k k' : String) (v : JsVal) (hk : k ≠ k') :
    (o.set k v).get k' = o.get k' := by
  simp [Obj.get, Obj.find?_set_other _ _ _ _ hk]

/-- Reading a spread: the property of `b` where `b` has it, that of `a` otherwise. -/
theorem Obj.get_spread (a b : Obj) (k : String) :
    (a.spread b).get k = if b.has k then b.get k else a.get k := by
  simp only [Obj.get, Obj.has, Obj.find?_spread]
  cases Obj.find? b k <;> simp

theorem Obj.get_of_not_has (o : Obj) (k : String) (h : o.has k = false) :
    o.get k = .undefined := by
  unfold Obj.has at h
  unfold Obj.get
  cases hf : Obj.find? o k with
  | none => rfl
  | some w => simp [hf] at h

theorem Obj.find?_filter_keys (o : Obj) (q : String → Bool) (k : String) :
    Obj.find? (o.filter (fun kv => q kv.1)) k = if q k then Obj.find? o k else none := by
  unfold Obj.find?
  rw [List.filter_filter]
  by_cases hq : q k = true
  · have hsame : List.filter (fun kv : String × JsVal => decide (kv.1 = k) && q kv.1) o =
        List.filter (fun kv : String × JsVal => decide (kv.1 = k)) o := by
      apply List.filter_congr
      intro kv _
      by_cases hk : kv.1 = k
      · simp [hk, hq]
      · simp [hk]
    simp [hsame, hq]
  · have hnil : List.filter (fun kv : String × JsVal => decide (kv.1 = k) && q kv.1) o = [] := by
      rw [List.filter_eq_nil_iff]
      intro kv _
      by_cases hk : kv.1 = k
      · simp [hk, hq]
      · simp [hk]
    simp [hnil, hq]

/-- Writing a record to JSON and reading it back changes no property read. -/
theorem jsonObj_get (o : Obj) (k : String) : (jsonObj o).get k = o.get k := by
  have h := Obj.find?_filter_keys o (fun k' => decide (o.get k' ≠ JsVal.undefined)) k
  unfold jsonObj
  by_cases hu : o.get k = .undefined
  · rw [Obj.get, h]
    simp [hu]
  · rw [Obj.get, h]
    simp only [ne_eq, hu, not_false_eq_true, decide_True, if_true]
    rfl

/-! ## `findIndex` -/

theorem findIndex_some {p : Obj → Bool} {l : List Obj} {i : Nat}
    (h : findIndex p l = some i) : ∃ hi : i < l.length, p (l.get ⟨i, hi⟩) = true := by
  induction l generalizing i with
  | nil => simp [findIndex] at h
  | cons a rest ih =>
      unfold findIndex at h
      by_cases hp : p a = true
      · simp [hp] at h
        subst h
        exact ⟨by simp, by simpa using hp⟩
      · simp only [hp] at h
        cases hr : findIndex p rest with
        | none => simp [hr] at h
        | some j =>
            simp [hr] at h
            subst h
            obtain ⟨hj, hpj⟩ := ih hr
            exact ⟨by simp; omega, by simpa using hpj⟩

theorem findIndex_none {p : Obj → Bool} {l : List Obj}
    (h : findIndex p l = none) : ∀ a ∈ l, p a = false := by
  induction l with
  | nil => simp
  | cons a rest ih =>
      unfold findIndex at h
      by_cases hp : p a = true
      · simp [hp] at h
      · simp only [hp] at h
        cases hr : findIndex p rest with
        | some j => simp [hr] at h
        | none =>
            intro b hb
            rcases List.mem_cons.mp hb with rfl | hb
            · simpa using hp
            · exact ih hr b hb

/-- The index `findIndex` returns depends only on the values of the predicate
along the list. -/
theorem findIndex_congr {p q : Obj → Bool} {l m : List Obj}
    (h : l.map p = m.map q) : findIndex p l = findIndex q m := by
  induction l generalizing m with
  | nil =>
      cases m with
      | nil => rfl
      | cons b m => simp at h
  | cons a rest ih =>
      cases m with
      | nil => simp at h
      | cons b m =>
          simp only [List.map_cons, List.cons.injEq] at h
          simp only [findIndex, h.1, ih h.2]

/-- Replacing an entry by one with the same image under `f` leaves the images
along the list as they were. -/
theorem map_set_same {β : Type} (f : Obj → β) (l : List Obj) (i : Nat) (hi : i < l.length)
    (a : Obj) (h : f a = f (l.get ⟨i, hi⟩)) : (l.set i a).map f = l.map f := by
  rw [List.map_set]
  apply List.ext_getElem
  · simp
  · intro n h1 h2
    rw [List.getElem_set]
    split
    · rename_i hin
      subst hin
      simp [h]
    · rfl

/-! ## Token expiry -/

/-- C10: with the clock reading `now`, `isTokenExpired(expiresAt)` is true exactly
when `expiresAt - now ≤ 300000`; it is true four minutes and false six minutes
before expiry; and once true for an expiry time it is true for every earlier
one. -/
theorem isTokenExpired_spec (now expiresAt : Int) :
    (isTokenExpired now expiresAt = true ↔ expiresAt - now ≤ 300000) ∧
    isTokenExpired now (now + 4 * 60 * 1000) = true ∧
    isTokenExpired now (now + 6 * 60 * 1000) = false ∧
    (∀ earlier : Int, earlier ≤ expiresAt → isTokenExpired now expiresAt = true →
      isTokenExpired now earlier = true) := by
  refine ⟨?_, ?_, ?_, ?_⟩
  · simp only [isTokenExpired, decide_eq_true_eq]; omega
  · simp only [isTokenExpired, decide_eq_true_eq]; omega
  · simp only [isTokenExpired, decide_eq_false_iff_not]; omega
  · intro earlier hle h
    simp only [isTokenExpired, decide_eq_true_eq] at h ⊢
    omega

/-- C10 at the clock reading 1700000000000: a token expiring at 1700000240000 is
expired, one expiring at 1700000360000 is not. -/
theorem isTokenExpired_spec_witness :
    isTokenExpired 1700000000000 1700000240000 = true ∧
    isTokenExpired 1700000000000 1700000360000 = false :=
  ⟨(isTokenExpired_spec 1700000000000 1700000240000).2.2.2 1700000240000 (by decide)
      (by decide),
   (isTokenExpired_spec 1700000000000 0).2.2.1⟩

/-! ## Removing an account -/

/-- C6: `removeAccount(id)` returns the loaded store without the accounts whose
identifier is `id`, the others in their order; a selection of `id` moves to the
identifier of the first remaining account, or to `null` when none remains; any
other selection stays. -/
theorem removeAccount_spec (P : Platform) (env : Env) (disk : Disk) (identifier : JsVal) :
    (∀ loaded : Store, loadAccounts P disk = .store loaded →
      removeAccount P env disk identifier =
        .ok (removeAccountFrom loaded identifier,
             (saveAccounts P env disk (removeAccountFrom loaded identifier)).2)) ∧
    ∀ store : Store,
      (∀ acc ∈ (removeAccountFrom store identifier).accounts, accId acc ≠ identifier) ∧
      (removeAccountFrom store identifier).accounts =
        store.accounts.filter (fun acc => decide (accId acc ≠ identifier)) ∧
      (∀ acc ∈ store.accounts, accId acc ≠ identifier →
        acc ∈ (removeAccountFrom store identifier).accounts) ∧
      List.Sublist (removeAccountFrom store identifier).accounts store.accounts ∧
      (store.selectedAccount = identifier →
        (removeAccountFrom store identifier).selectedAccount =
          match (removeAccountFrom store identifier).accounts.head? with
          | some first => accId first
          | none => .null) ∧
      (store.selectedAccount ≠ identifier →
        (removeAccountFrom store identifier).selectedAccount = store.selectedAccount) := by
  refine ⟨fun loaded hload => by simp only [removeAccount, hload],
    fun store => ⟨?_, rfl, ?_, ?_, ?_, ?_⟩⟩
  · intro acc hacc
    simp only [removeAccountFrom, List.mem_filter, decide_eq_true_eq] at hacc
    exact hacc.2
  · intro acc hacc hne
    simp only [removeAccountFrom, List.mem_filter, decide_eq_true_eq]
    exact ⟨hacc, hne⟩
  · exact List.filter_sublist _
  · intro hsel
    simp only [removeAccountFrom, hsel, if_true]
    cases List.filter (fun acc => decide (accId acc ≠ identifier)) store.accounts <;> rfl
  · intro hsel
    simp only [removeAccountFrom, hsel, if_false]

/-- C6 on a store of two accounts, the selected one removed: the selection moves
to the remaining account. -/
theorem removeAccount_spec_witness :
    (removeAccountFrom sampleTwoAccounts (.str "Steve")).selectedAccount = .str "U1" := by
  rw [((removeAccount_spec samplePlatform (sampleEnv 0) .absent (.str "Steve")).2
    sampleTwoAccounts).2.2.2.2.1 rfl]
  decide

/-! ## The selection invariant -/

theorem Obj.get_spread_nil (b : Obj) (k : String) : (Obj.spread [] b).get k = b.get k := by
  rw [Obj.get_spread]
  by_cases h : b.has k = true
  · simp [h]
  · have hf : b.has k = false := by simpa using h
    rw [Obj.get_of_not_has b k hf]
    simp only [hf, Bool.false_eq_true, if_false]
    rfl

theorem accId_set_lastUsed (o : Obj) (v : JsVal) : accId (o.set "lastUsed" v) = accId o := by
  unfold accId
  rw [Obj.get_set_other o "lastUsed" "type" v (by decide),
    Obj.get_set_other o "lastUsed" "uuid" v (by decide),
    Obj.get_set_other o "lastUsed" "username" v (by decide)]

/-- The identifier `addAccount` selects when nothing was selected:
`accountData.type === "microsoft" ? accountData.uuid : accountData.username`. -/
theorem accId_appended (accountData : Obj) (t u : JsVal) :
    accId (((Obj.spread [] accountData).set "addedAt" t).set "lastUsed" u) =
      accId accountData := by
  rw [accId_set_lastUsed]
  unfold accId
  rw [Obj.get_set_other _ "addedAt" "type" t (by decide),
    Obj.get_set_other _ "addedAt" "uuid" t (by decide),
    Obj.get_set_other _ "addedAt" "username" t (by decide),
    Obj.get_spread_nil, Obj.get_spread_nil, Obj.get_spread_nil]

/-- Merging the incoming data into the entry `findIndex` matched gives an entry
whose identifier is that of the incoming data. -/
theorem accId_merged_data (accountData existing : Obj) (t : JsVal)
    (hsame : sameAccount accountData existing = true) :
    accId ((existing.spread accountData).set "lastUsed" t) = accId accountData := by
  rw [accId_set_lastUsed]
  unfold sameAccount at hsame
  by_cases hms : accountData.get "type" = .str "microsoft"
  · simp only [hms, if_true, decide_eq_true_eq] at hsame
    have hhas : accountData.has "type" = true := by
      by_contra hno
      have hf : accountData.has "type" = false := by simpa using hno
      rw [Obj.get_of_not_has _ _ hf] at hms
      exact absurd hms (by decide)
    have htm : (existing.spread accountData).get "type" = .str "microsoft" := by
      rw [Obj.get_spread, hhas]; simpa using hms
    have hum : (existing.spread accountData).get "uuid" = accountData.get "uuid" := by
      rw [Obj.get_spread]
      by_cases hu : accountData.has "uuid" = true
      · simp [hu]
      · simp [hu, hsame]
    simp only [accId, htm, hum, hms, if_true]
  · simp only [hms, if_false, Bool.and_eq_true, decide_eq_true_eq] at hsame
    have htm : (existing.spread accountData).get "type" ≠ .str "microsoft" := by
      rw [Obj.get_spread]
      by_cases ht : accountData.has "type" = true
      · simpa [ht] using hms
      · simp [ht, hsame.2]
    have hum : (existing.spread accountData).get "username" = accountData.get "username" := by
      rw [Obj.get_spread]
      by_cases hu : accountData.has "username" = true
      · simp [hu]
      · simp [hu, hsame.1]
    simp only [accId, htm, hum, hms, if_false]

/-- Merging the incoming data into the entry `findIndex` matched leaves the
identifier of the entry as it was, unless microsoft data is merged into an entry
that is not a microsoft account. -/
theorem accId_merged (accountData existing : Obj) (t : JsVal)
    (hsame : sameAccount accountData existing = true)
    (htype : accountData.get "type" = .str "microsoft" →
      existing.get "type" = .str "microsoft") :
    accId ((existing.spread accountData).set "lastUsed" t) = accId existing := by
  rw [accId_merged_data accountData existing t hsame]
  unfold sameAccount at hsame
  by_cases hms : accountData.get "type" = .str "microsoft"
  · have hex := htype hms
    simp only [hms, if_true, decide_eq_true_eq] at hsame
    simp only [accId, hex, hms, hsame, if_true]
  · simp only [hms, if_false, Bool.and_eq_true, decide_eq_true_eq] at hsame
    have hex : existing.get "type" ≠ .str "microsoft" := by
      rw [hsame.2]; decide
    simp only [accId, hex, hms, hsame.1, if_false]

/-- An element of a list other than the one at position `i` is still there after
the assignment to position `i`. -/
theorem mem_set_of_ne {l : List Obj} {i : Nat} (hi : i < l.length) {a x : Obj}
    (ha : a ∈ l) (hne : a ≠ l.get ⟨i, hi⟩) : a ∈ l.set i x := by
  obtain ⟨n, hn, hna⟩ := List.mem_iff_getElem.mp ha
  have hni : i ≠ n := by
    intro he
    subst he
    exact hne hna.symm
  refine List.mem_iff_getElem.mpr ⟨n, by simpa using hn, ?_⟩
  rw [List.getElem_set, if_neg hni]
  exact hna

/-- Where the operations keep the selection invariant. From a store whose
selection is `null` or the identifier of one of its accounts, `removeAccount`
and `selectAccount` produce, for every argument, a store whose selection again
is `null` or the identifier of one of its accounts. So does `addAccount`, unless
microsoft data is merged into an entry that is not a microsoft account while
something is selected and it is the identifier of that entry. -/
theorem selection_valid_preserved (store : Store) (now : Nat → Int) (accountData : Obj)
    (identifier : JsVal) (hvalid : SelectionValid store) :
    ((∀ i, findIndex (sameAccount accountData) store.accounts = some i →
        accountData.get "type" = .str "microsoft" →
        (store.accounts.getD i []).get "type" = .str "microsoft" ∨
          store.selectedAccount.truthy = false ∨
          store.selectedAccount ≠ accId (store.accounts.getD i [])) →
      SelectionValid (addAccountTo store now accountData)) ∧
    SelectionValid (removeAccountFrom store identifier) ∧
    (∀ account saved, selectAccountIn store now identifier = some (account, saved) →
      SelectionValid saved) := by
  refine ⟨?_, ?_, ?_⟩
  · intro hcond
    unfold SelectionValid at hvalid ⊢
    right
    cases hfi : findIndex (sameAccount accountData) store.accounts with
    | none =>
        simp only [addAccountTo, hfi, List.map_append, List.map_cons, List.map_nil,
          accId_appended, List.mem_append, List.mem_singleton]
        by_cases ht : store.selectedAccount.truthy = true
        · simp only [ht, if_true]
          rcases hvalid with hnull | hmem
          · rw [hnull] at ht; exact absurd ht (by decide)
          · exact Or.inl hmem
        · simp only [ht]
          right
          simp [accId]
    | some i =>
        obtain ⟨hi, hp⟩ := findIndex_some hfi
        have hget : store.accounts.getD i [] = store.accounts.get ⟨i, hi⟩ := by
          rw [List.getD_eq_getElem _ _ hi]; rfl
        have hd := accId_merged_data accountData (store.accounts.get ⟨i, hi⟩)
          (.num (now 0)) hp
        simp only [addAccountTo, hfi, hget]
        by_cases ht : store.selectedAccount.truthy = true
        · simp only [ht, if_true]
          rcases hvalid with hnull | hmem
          · rw [hnull] at ht; exact absurd ht (by decide)
          · by_cases hkeep : accountData.get "type" = .str "microsoft" →
                (store.accounts.get ⟨i, hi⟩).get "type" = .str "microsoft"
            · rw [map_set_same accId _ i hi _
                (accId_merged accountData _ (.num (now 0)) hp hkeep)]
              exact hmem
            · have hms : accountData.get "type" = .str "microsoft" := by
                by_contra hno
                exact hkeep (fun h => absurd h hno)
              have hne : store.selectedAccount ≠ accId (store.accounts.get ⟨i, hi⟩) := by
                rcases hcond i hfi hms with hty | hfalsy | hne
                · rw [hget] at hty
                  exact absurd (fun _ => hty) hkeep
                · rw [ht] at hfalsy
                  cases hfalsy
                · rwa [hget] at hne
              obtain ⟨acc, hacc, hid⟩ := List.mem_map.mp hmem
              refine List.mem_map.mpr ⟨acc, mem_set_of_ne hi hacc ?_, hid⟩
              intro he
              exact hne (by rw [← he, hid])
        · simp only [ht]
          have hin : accId (((store.accounts.get ⟨i, hi⟩).spread accountData).set "lastUsed"
              (.num (now 0))) ∈ (store.accounts.set i
                (((store.accounts.get ⟨i, hi⟩).spread accountData).set "lastUsed"
                  (.num (now 0)))).map accId :=
            List.mem_map.mpr ⟨_, List.mem_set _ _ hi _, rfl⟩
          rw [hd] at hin
          simpa [accId] using hin
  · unfold SelectionValid at hvalid ⊢
    by_cases hsel : store.selectedAccount = identifier
    · simp only [removeAccountFrom, hsel, if_true]
      cases List.filter (fun acc => decide (accId acc ≠ identifier)) store.accounts with
      | nil => left; rfl
      | cons first rest => right; simp
    · simp only [removeAccountFrom, hsel, if_false]
      rcases hvalid with hnull | hmem
      · exact Or.inl hnull
      · right
        obtain ⟨acc, hacc, hid⟩ := List.mem_map.mp hmem
        refine List.mem_map.mpr ⟨acc, ?_, hid⟩
        simp only [List.mem_filter, decide_eq_true_eq]
        exact ⟨hacc, by rw [hid]; exact hsel⟩
  · intro account saved hselect
    unfold selectAccountIn at hselect
    cases hfi : findIndex (fun acc => decide (accId acc = identifier)) store.accounts with
    | none => simp [hfi] at hselect
    | some i =>
        obtain ⟨hi, hp⟩ := findIndex_some hfi
        simp only [hfi, Option.some.injEq, Prod.mk.injEq] at hselect
        obtain ⟨_, hsaved⟩ := hselect
        subst hsaved
        unfold SelectionValid
        right
        have hget : store.accounts.getD i [] = store.accounts.get ⟨i, hi⟩ := by
          rw [List.getD_eq_getElem _ _ hi]; rfl
        simp only [hget]
        rw [map_set_same accId _ i hi _ (accId_set_lastUsed _ _)]
        simp only [decide_eq_true_eq] at hp
        exact List.mem_map.mpr ⟨_, List.get_mem _ _ _, hp⟩

/-- The selection invariant on the store of Steve (offline, selected) and Alex
(microsoft, uuid U1): refreshed data for U1 is merged into Alex, a microsoft
account, and the selection stays valid; so it does when Steve is removed. -/
theorem selection_valid_preserved_sample :
    SelectionValid sampleTwoAccounts ∧
    SelectionValid (addAccountTo sampleTwoAccounts (fun _ => 1700000000000)
      (sampleMicrosoftData "U1" "Alex")) ∧
    SelectionValid (removeAccountFrom sampleTwoAccounts (.str "Steve")) :=
  ⟨by decide,
   (selection_valid_preserved sampleTwoAccounts (fun _ => 1700000000000)
      (sampleMicrosoftData "U1" "Alex") (.str "Steve") (by decide)).1
      (by
        have hfi : findIndex (sameAccount (sampleMicrosoftData "U1" "Alex"))
            sampleTwoAccounts.accounts = some 1 := by decide
        intro i hi _
        rw [hfi] at hi
        cases hi
        exact Or.inl (by decide)),
   (selection_valid_preserved sampleTwoAccounts (fun _ => 1700000000000)
      (sampleMicrosoftData "U1" "Alex") (.str "Steve") (by decide)).2.1⟩

/-- C5 fails on the code, in `addAccount`. The file holds the offline account
Bob (uuid `null`), selected, so the store loaded has the invariant.
For microsoft data the callback of `findIndex` compares the uuid alone, without
the test of the type its offline branch makes: data whose uuid is `null` matches
Bob, the entry becomes a microsoft account with identifier `null`, and
`selectedAccount` stays `"Bob"`, the identifier of no account of the store
returned. -/
theorem addAccount_breaks_selection :
    loadAccounts samplePlatform sampleOfflineDisk = .store sampleOfflineStore ∧
    SelectionValid sampleOfflineStore ∧
    findIndex (sameAccount sampleNullUuidData) sampleOfflineStore.accounts = some 0 ∧
    (addAccount samplePlatform (sampleEnv 1700000000000) sampleOfflineDisk
        sampleNullUuidData).map Prod.fst =
      .ok { accounts := [[("type", .str "microsoft"), ("username", .str "Alice"),
                          ("uuid", .null), ("accessToken", .null), ("refreshToken", .null),
                          ("lastUsed", .num 1700000000000)]],
            selectedAccount := .str "Bob" } ∧
    ¬ SelectionValid
      { accounts := [[("type", .str "microsoft"), ("username", .str "Alice"),
                      ("uuid", .null), ("accessToken", .null), ("refreshToken", .null),
                      ("lastUsed", .num 1700000000000)]],
        selectedAccount := .str "Bob" } := by
  refine ⟨by rfl, by decide, by decide, by rfl, by decide⟩

/-! ## Adding an account twice -/

theorem encryptAccount_get {P : Platform} {iv₁ iv₂ : IV} {account acc : Obj}
    (h : encryptAccount P iv₁ iv₂ account = some acc) (k : String)
    (h₁ : k ≠ "accessToken") (h₂ : k ≠ "refreshToken") : acc.get k = account.get k := by
  unfold encryptAccount at h
  split at h
  · split at h
    · exact absurd h (by simp)
    · rename_i access _
      simp only [] at h
      split at h
      · split at h
        · exact absurd h (by simp)
        · simp only [Option.some.injEq] at h
          subst h
          rw [Obj.get_set_other _ _ _ _ (Ne.symm h₂), Obj.get_set_other _ _ _ _ (Ne.symm h₁)]
      · simp only [Option.some.injEq] at h
        subst h
        rw [Obj.get_set_other _ _ _ _ (Ne.symm h₁)]
  · simp only [Option.some.injEq] at h
    subst h
    rfl

theorem encryptAccounts_get {P : Platform} {ivs : Nat → IV} {n : Nat} {l l' : List Obj}
    (h : encryptAccounts P ivs n l = some l') (k : String)
    (h₁ : k ≠ "accessToken") (h₂ : k ≠ "refreshToken") :
    l'.map (fun a => a.get k) = l.map (fun a => a.get k) := by
  induction l generalizing n l' with
  | nil =>
      simp only [encryptAccounts, Option.some.injEq] at h
      subst h; rfl
  | cons a rest ih =>
      unfold encryptAccounts at h
      cases ha : encryptAccount P (ivs (2 * n)) (ivs (2 * n + 1)) a with
      | none => simp [ha] at h
      | some acc =>
          cases hr : encryptAccounts P ivs (n + 1) rest with
          | none => simp [ha, hr] at h
          | some accs =>
              simp only [ha, hr, Option.some.injEq] at h
              subst h
              simp only [List.map_cons, encryptAccount_get ha k h₁ h₂, ih hr]

theorem decryptAccount_get (P : Platform) (account : Obj) (k : String)
    (h₁ : k ≠ "accessToken") (h₂ : k ≠ "refreshToken") :
    (decryptAccount P account).get k = account.get k := by
  unfold decryptAccount
  split
  · simp only []
    split
    · rw [Obj.get_set_other _ _ _ _ (Ne.symm h₂), Obj.get_set_other _ _ _ _ (Ne.symm h₁)]
    · rw [Obj.get_set_other _ _ _ _ (Ne.symm h₁)]
  · rfl

/-- What a successful save writes is read back by `loadAccounts` as a store, with
every property other than the two tokens as it was saved. -/
theorem load_after_save_get {P : Platform} {env : Env} {disk : Disk} {store : Store}
    (hsaved : (saveAccounts P env disk store).1 = true) :
    ∃ loaded : Store, loadAccounts P (saveAccounts P env disk store).2 = .store loaded ∧
      ∀ k : String, k ≠ "accessToken" → k ≠ "refreshToken" →
        loaded.accounts.map (fun a => a.get k) = store.accounts.map (fun a => a.get k) := by
  unfold saveAccounts at hsaved ⊢
  by_cases hw : env.writable = true
  · simp only [hw, if_true] at hsaved ⊢
    unfold documentToSave at hsaved ⊢
    cases he : encryptAccounts P env.ivs 0 store.accounts with
    | none => simp [he] at hsaved
    | some enc =>
        refine ⟨_, rfl, ?_⟩
        intro k h₁ h₂
        simp only [List.map_map]
        rw [← encryptAccounts_get he k h₁ h₂]
        apply List.map_congr_left
        intro a _
        simp only [Function.comp_apply]
        rw [decryptAccount_get P _ k h₁ h₂, jsonObj_get]
  · simp [hw] at hsaved

theorem sameAccount_microsoft {accountData : Obj}
    (h : accountData.get "type" = .str "microsoft") :
    sameAccount accountData = fun acc => decide (acc.get "uuid" = accountData.get "uuid") := by
  funext acc
  simp [sameAccount, h]

theorem merged_get (existing accountData : Obj) (t : JsVal) (k : String) (hk : k ≠ "lastUsed") :
    ((existing.spread accountData).set "lastUsed" t).get k =
      if accountData.has k then accountData.get k else existing.get k := by
  rw [Obj.get_set_other _ _ _ _ (Ne.symm hk), Obj.get_spread]

/-- What `addAccount` with microsoft data of uuid `U` does to the column of
uuids: nothing where an entry with that uuid exists, otherwise `U` is appended. -/
theorem addAccountTo_uuids (store : Store) (now : Nat → Int) (accountData : Obj)
    (htype : accountData.get "type" = .str "microsoft") :
    (addAccountTo store now accountData).accounts.map (fun a => a.get "uuid") =
      if accountData.get "uuid" ∈ store.accounts.map (fun a => a.get "uuid") then
        store.accounts.map (fun a => a.get "uuid")
      else store.accounts.map (fun a => a.get "uuid") ++ [accountData.get "uuid"] := by
  cases hfi : findIndex (sameAccount accountData) store.accounts with
  | none =>
      have hno := findIndex_none hfi
      rw [sameAccount_microsoft htype] at hno
      have hnot : accountData.get "uuid" ∉ store.accounts.map (fun a => a.get "uuid") := by
        intro hmem
        obtain ⟨a, ha, hu⟩ := List.mem_map.mp hmem
        have := hno a ha
        simp [hu] at this
      simp only [addAccountTo, hfi, hnot, if_false, List.map_append, List.map_cons,
        List.map_nil]
      rw [Obj.get_set_other _ _ _ _ (by decide), Obj.get_set_other _ _ _ _ (by decide),
        Obj.get_spread_nil]
  | some i =>
      obtain ⟨hi, hp⟩ := findIndex_some hfi
      rw [sameAccount_microsoft htype] at hp
      simp only [decide_eq_true_eq] at hp
      have hmem : accountData.get "uuid" ∈ store.accounts.map (fun a => a.get "uuid") :=
        List.mem_map.mpr ⟨_, List.get_mem _ _ _, hp⟩
      have hget : store.accounts.getD i [] = store.accounts.get ⟨i, hi⟩ := by
        rw [List.getD_eq_getElem _ _ hi]; rfl
      simp only [addAccountTo, hfi, hmem, if_true, hget]
      apply map_set_same
      rw [merged_get _ _ _ _ (by decide), hp]
      split <;> rfl

/-- C4, amended: when the loaded store holds at most one account with uuid `U`
and `addAccount` is called twice with microsoft data of uuid `U`, the first save
having succeeded, both calls return; the store returned by the second call has
exactly one entry with uuid `U` and the length of the store returned by the
first; the second call replaces the entry it loaded at the position where the
first call left it; the new entry reads every incoming property other than
`lastUsed` from the incoming data and every other property from the loaded entry
(which agrees with the entry the first call returned on all properties but the
tokens); its `lastUsed` is the current time, not the incoming value. -/
theorem addAccount_twice (P : Platform) (env₁ env₂ : Env) (disk : Disk)
    (first second : Obj) (U : JsVal) (store : Store)
    (hfirst : first.get "type" = .str "microsoft" ∧ first.get "uuid" = U)
    (hsecond : second.get "type" = .str "microsoft" ∧ second.get "uuid" = U)
    (hload : loadAccounts P disk = .store store)
    (hone : (store.accounts.map (fun a => a.get "uuid")).count U ≤ 1)
    (hsaved : (saveAccounts P env₁ disk (addAccountTo store env₁.now first)).1 = true) :
    ∃ r₁ r₂ : Store × Disk, ∃ existing : Store,
      addAccount P env₁ disk first = .ok r₁ ∧
      loadAccounts P r₁.2 = .store existing ∧
      addAccount P env₂ r₁.2 second = .ok r₂ ∧
      (r₂.1.accounts.map (fun a => a.get "uuid")).count U = 1 ∧
      r₂.1.accounts.length = r₁.1.accounts.length ∧
      ∃ i, ∃ hi : i < existing.accounts.length,
        (r₁.1.accounts.map (fun a => a.get "uuid")).get? i = some U ∧
        r₂.1.accounts = existing.accounts.set i
          (((existing.accounts.get ⟨i, hi⟩).spread second).set "lastUsed"
            (.num (env₂.now 0))) ∧
        (∀ k, k ≠ "accessToken" → k ≠ "refreshToken" →
          (existing.accounts.get ⟨i, hi⟩).get k = (r₁.1.accounts.getD i []).get k) ∧
        (∀ k, k ≠ "lastUsed" →
          (r₂.1.accounts.getD i []).get k =
            if second.has k then second.get k else (existing.accounts.get ⟨i, hi⟩).get k) ∧
        (r₂.1.accounts.getD i []).get "lastUsed" = .num (env₂.now 0) := by
  obtain ⟨existing, hE, hread⟩ := load_after_save_get hsaved
  generalize hs₁ : addAccountTo store env₁.now first = s₁ at hsaved hE hread
  have hcall₁ : addAccount P env₁ disk first = .ok (s₁, (saveAccounts P env₁ disk s₁).2) := by
    simp only [addAccount, hload, hs₁]
  generalize hd₁ : (saveAccounts P env₁ disk s₁).2 = d₁ at hE hcall₁
  generalize hs₂ : addAccountTo existing env₂.now second = s₂
  have hcall₂ : addAccount P env₂ d₁ second = .ok (s₂, (saveAccounts P env₂ d₁ s₂).2) := by
    simp only [addAccount, hE, hs₂]
  refine ⟨(s₁, d₁), (s₂, (saveAccounts P env₂ d₁ s₂).2), existing, hcall₁, hE, hcall₂, ?_⟩
  simp only []
  -- the uuids after the first call
  have hcol₁ := addAccountTo_uuids store env₁.now first hfirst.1
  rw [hfirst.2, hs₁] at hcol₁
  have hcount₁ : (s₁.accounts.map (fun a => a.get "uuid")).count U = 1 := by
    rw [hcol₁]
    split
    · rename_i hmem
      have := List.one_le_count_iff.mpr hmem
      omega
    · rename_i hmem
      rw [List.count_append, List.count_eq_zero.mpr hmem]
      simp
  -- the uuids the second call loads
  have hcolE : existing.accounts.map (fun a => a.get "uuid") =
      s₁.accounts.map (fun a => a.get "uuid") :=
    hread "uuid" (by decide) (by decide)
  have hmemE : U ∈ existing.accounts.map (fun a => a.get "uuid") := by
    rw [hcolE]
    exact List.one_le_count_iff.mp (by omega)
  have hcol₂ := addAccountTo_uuids existing env₂.now second hsecond.1
  rw [hsecond.2, hs₂, if_pos hmemE] at hcol₂
  have hlenE : existing.accounts.length = s₁.accounts.length := by
    have := congrArg List.length hcolE
    simpa using this
  have hlen₂ : s₂.accounts.length = existing.accounts.length := by
    have := congrArg List.length hcol₂
    simpa using this
  refine ⟨by rw [hcol₂, hcolE]; exact hcount₁, by rw [hlen₂, hlenE], ?_⟩
  cases hfi : findIndex (sameAccount second) existing.accounts with
  | none =>
      exfalso
      have hno := findIndex_none hfi
      rw [sameAccount_microsoft hsecond.1, hsecond.2] at hno
      obtain ⟨a, ha, hu⟩ := List.mem_map.mp hmemE
      have := hno a ha
      simp [hu] at this
  | some i =>
      obtain ⟨hi, hp⟩ := findIndex_some hfi
      rw [sameAccount_microsoft hsecond.1, hsecond.2] at hp
      simp only [decide_eq_true_eq] at hp
      have hget : existing.accounts.getD i [] = existing.accounts.get ⟨i, hi⟩ := by
        rw [List.getD_eq_getElem _ _ hi]; rfl
      have hacc : s₂.accounts = existing.accounts.set i
          (((existing.accounts.get ⟨i, hi⟩).spread second).set "lastUsed"
            (.num (env₂.now 0))) := by
        rw [← hs₂]
        simp only [addAccountTo, hfi, hget]
      have hi₁ : i < s₁.accounts.length := by omega
      have hentry : s₂.accounts.getD i [] =
          ((existing.accounts.get ⟨i, hi⟩).spread second).set "lastUsed"
            (.num (env₂.now 0)) := by
        rw [hacc, List.getD_eq_getElem _ _ (by simpa using hi)]
        simp
      refine ⟨i, hi, ?_, hacc, ?_, ?_, ?_⟩
      · rw [← hcolE]
        simp only [List.get?_eq_getElem?, List.getElem?_map]
        rw [List.getElem?_eq_getElem hi]
        simpa using hp
      · intro k h₁ h₂
        have hk := hread k h₁ h₂
        have hk' := congrArg (fun l => l.get? i) hk
        simp only [List.get?_eq_getElem?, List.getElem?_map] at hk'
        rw [List.getElem?_eq_getElem hi, List.getElem?_eq_getElem hi₁] at hk'
        simp only [Option.map_some', Option.some.injEq] at hk'
        rw [List.getD_eq_getElem _ _ hi₁]
        exact hk'
      · intro k hk
        rw [hentry, merged_get _ _ _ _ hk]
      · rw [hentry, Obj.get_set_self]

/-- C4, amended, on an absent file: two calls of `addAccount` with data of uuid U1
leave exactly one entry with uuid U1. -/
theorem addAccount_twice_witness :
    ∃ r₁ r₂ : Store × Disk,
      addAccount samplePlatform (sampleEnv 1000) .absent sampleFirstData = .ok r₁ ∧
      addAccount samplePlatform (sampleEnv 2000) r₁.2 sampleSecondData = .ok r₂ ∧
      (r₂.1.accounts.map (fun a => a.get "uuid")).count (.str "U1") = 1 := by
  obtain ⟨r₁, r₂, _, h₁, _, h₂, hcount, _⟩ :=
    addAccount_twice samplePlatform (sampleEnv 1000) (sampleEnv 2000) .absent
      sampleFirstData sampleSecondData (.str "U1") Store.empty (by decide) (by decide) rfl
      (by decide) (by decide)
  exact ⟨r₁, r₂, h₁, h₂, hcount⟩

/-- C4 as stated fails for the incoming `lastUsed`: after the two calls, made at
the times 1000 and 2000 with data carrying `lastUsed: 1` and `lastUsed: 2`, the
one entry has `lastUsed` 2000, not the incoming 2, while the incoming user name
has replaced the earlier one and `addedAt` is kept. -/
theorem addAccount_twice_lastUsed_not_incoming :
    sampleSecondData.has "lastUsed" = true ∧
    sampleSecondData.get "lastUsed" = .num 2 ∧
    ((addAccount samplePlatform (sampleEnv 1000) .absent sampleFirstData).bind
        (fun r₁ => addAccount samplePlatform (sampleEnv 2000) r₁.2 sampleSecondData)).map
      (fun r₂ => r₂.1.accounts.map
        (fun a => (a.get "uuid", a.get "username", a.get "addedAt", a.get "lastUsed"))) =
      .ok [(.str "U1", .str "Alexa", .num 1000, .num 2000)] := by
  refine ⟨by decide, by decide, by rfl⟩

/-- When the save of the first call fails (here the file cannot be written; the
result of `saveAccounts` is ignored by `addAccount`), the second call finds no
entry on disk and appends: the entry it returns is stamped `addedAt` 2000, that
of the first call, 1000, is lost. -/
theorem addAccount_twice_unsaved :
    (addAccount samplePlatform { sampleEnv 1000 with writable := false } .absent
      sampleFirstData).map Prod.snd = .ok .absent ∧
    ((addAccount samplePlatform { sampleEnv 1000 with writable := false } .absent
        sampleFirstData).bind
        (fun r₁ => addAccount samplePlatform (sampleEnv 2000) r₁.2 sampleSecondData)).map
      (fun r₂ => r₂.1.accounts.map (fun a => (a.get "uuid", a.get "addedAt"))) =
      .ok [(.str "U1", .num 2000)] := by
  refine ⟨by rfl, by rfl⟩

/-! ## Offline accounts -/

theorem jsLength_eq_zero (l : List Char) : jsLength l = 0 ↔ l = [] := by
  cases l with
  | nil => simp [jsLength]
  | cons c rest =>
      simp only [jsLength, List.map_cons, List.sum_cons]
      constructor
      · intro h
        split at h <;> omega
      · intro h; exact absurd h (by simp)

theorem jsLength_sublist {l₁ l₂ : List Char} (h : List.Sublist l₁ l₂) :
    jsLength l₁ ≤ jsLength l₂ := by
  induction h with
  | slnil => exact Nat.le_refl _
  | cons a _ ih =>
      simp only [jsLength, List.map_cons, List.sum_cons] at ih ⊢
      omega
  | cons₂ a _ ih =>
      simp only [jsLength, List.map_cons, List.sum_cons] at ih ⊢
      omega

theorem trim_sublist (l : List Char) : List.Sublist (trim l) l := by
  unfold trim
  have h₁ : List.Sublist ((l.dropWhile isTrimmed).reverse.dropWhile isTrimmed)
      (l.dropWhile isTrimmed).reverse := List.dropWhile_sublist _
  have h₂ := h₁.reverse
  rw [List.reverse_reverse] at h₂
  exact h₂.trans (List.dropWhile_sublist _)

theorem dropWhile_head_not (p : Char → Bool) (l : List Char) :
    ∀ c rest, l.dropWhile p = c :: rest → p c = false := by
  induction l with
  | nil => intro c rest h; simp at h
  | cons a l ih =>
      intro c rest h
      by_cases hp : p a = true
      · rw [List.dropWhile_cons_of_pos hp] at h
        exact ih c rest h
      · rw [List.dropWhile_cons_of_neg hp] at h
        simp only [List.cons.injEq] at h
        rw [← h.1]
        simpa using hp

theorem trim_eq_nil (l : List Char) : trim l = [] ↔ ∀ c ∈ l, isTrimmed c = true := by
  unfold trim
  rw [List.reverse_eq_nil_iff, List.dropWhile_eq_nil_iff]
  constructor
  · intro h
    cases hd : l.dropWhile isTrimmed with
    | nil => exact List.dropWhile_eq_nil_iff.mp hd
    | cons c rest =>
        have hc := dropWhile_head_not isTrimmed l c rest hd
        have := h c (by rw [hd]; simp)
        rw [hc] at this
        exact absurd this (by decide)
  · intro h
    rw [List.dropWhile_eq_nil_iff.mpr h]
    simp

/-- The store `addAccount` returns holds an entry that reads every incoming
property, the two time stamps apart, as the incoming data has it. -/
theorem addAccountTo_entry (store : Store) (now : Nat → Int) (accountData : Obj) :
    ∃ acc ∈ (addAccountTo store now accountData).accounts,
      ∀ k, k ≠ "lastUsed" → k ≠ "addedAt" → accountData.has k = true →
        acc.get k = accountData.get k := by
  cases hfi : findIndex (sameAccount accountData) store.accounts with
  | none =>
      refine ⟨((Obj.spread [] accountData).set "addedAt" (.num (now 0))).set
        "lastUsed" (.num (now 1)), by simp [addAccountTo, hfi], ?_⟩
      intro k h₁ h₂ _
      rw [Obj.get_set_other _ _ _ _ (Ne.symm h₁), Obj.get_set_other _ _ _ _ (Ne.symm h₂),
        Obj.get_spread_nil]
  | some i =>
      obtain ⟨hi, _⟩ := findIndex_some hfi
      refine ⟨((store.accounts.getD i []).spread accountData).set "lastUsed"
        (.num (now 0)), ?_, ?_⟩
      · simp only [addAccountTo, hfi]
        exact List.mem_iff_getElem.mpr ⟨i, by simpa using hi, by simp⟩
      · intro k h₁ _ hhas
        rw [merged_get _ _ _ _ h₁, hhas]
        rfl

theorem offline_record_reads (name : String) :
    let record : Obj :=
      [("type", .str "offline"), ("username", .str name), ("uuid", .null),
       ("accessToken", .null), ("refreshToken", .null)]
    (record.has "type" = true ∧ record.get "type" = .str "offline") ∧
    (record.has "username" = true ∧ record.get "username" = .str name) ∧
    (record.has "uuid" = true ∧ record.get "uuid" = .null) ∧
    (record.has "accessToken" = true ∧ record.get "accessToken" = .null) ∧
    (record.has "refreshToken" = true ∧ record.get "refreshToken" = .null) := by
  simp [Obj.has, Obj.get, Obj.find?, List.filter]

theorem noSuchMethod_typeError (accounts : JsVal) (name : String) :
    ∃ message, noSuchMethod accounts name = .typeError message := by
  cases accounts <;> exact ⟨_, rfl⟩

/-- What `addOfflineAccount` does for a string `username`, whatever the file holds.
It throws one of its two validation errors exactly when the string is empty,
consists of characters that `trim` removes, or has a `length` above 16
(characters counted as JavaScript counts them, in UTF-16 code units). For every
other name it passes an offline record with the trimmed name, of length at most
16, and `null` for uuid and tokens on to `addAccount`: where a store is loaded
it returns what `addAccount` returns, a store holding an account with these
properties; where what is loaded has no list of accounts it throws the
`TypeError` of `addAccount`. -/
theorem addOfflineAccount_spec (P : Platform) (env : Env) (disk : Disk) (username : String) :
    ((∃ message, addOfflineAccount P env disk username = .error (.error message)) ↔
      (username = "" ∨ (∀ c ∈ username.data, isTrimmed c = true) ∨
        jsLength username.data > 16)) ∧
    (∀ message, addOfflineAccount P env disk username = .error (.error message) →
      message = "Username cannot be empty" ∨
        message = "Username must be 16 characters or less") ∧
    (¬ (username = "" ∨ (∀ c ∈ username.data, isTrimmed c = true) ∨
        jsLength username.data > 16) →
      addOfflineAccount P env disk username =
        addAccount P env disk
          [("type", .str "offline"), ("username", .str ⟨trim username.data⟩),
           ("uuid", .null), ("accessToken", .null), ("refreshToken", .null)] ∧
      jsLength (trim username.data) ≤ 16 ∧
      (∀ store : Store, loadAccounts P disk = .store store →
        ∃ result, addOfflineAccount P env disk username = .ok result ∧
          ∃ acc ∈ result.1.accounts,
            acc.get "type" = .str "offline" ∧
            acc.get "username" = .str ⟨trim username.data⟩ ∧
            acc.get "uuid" = .null ∧ acc.get "accessToken" = .null ∧
            acc.get "refreshToken" = .null) ∧
      (∀ accounts selectedAccount : JsVal,
        loadAccounts P disk = .noAccounts accounts selectedAccount →
        ∃ message, addOfflineAccount P env disk username = .error (.typeError message))) := by
  have hempty : (username = "" ∨ jsLength (trim username.data) = 0) ↔
      (username = "" ∨ ∀ c ∈ username.data, isTrimmed c = true) := by
    rw [jsLength_eq_zero, trim_eq_nil]
  have hadd : ∀ (data : Obj) (message : String),
      addAccount P env disk data ≠ .error (.error message) := by
    intro data message h
    unfold addAccount at h
    split at h
    · cases h
    · rename_i accounts _ _
      obtain ⟨m, hm⟩ := noSuchMethod_typeError accounts "findIndex"
      rw [hm] at h
      cases h
  refine ⟨?_, ?_, ?_⟩
  · unfold addOfflineAccount
    constructor
    · rintro ⟨message, h⟩
      by_cases h₁ : username = "" ∨ jsLength (trim username.data) = 0
      · rcases hempty.mp h₁ with h' | h'
        · exact Or.inl h'
        · exact Or.inr (Or.inl h')
      · simp only [h₁, if_false] at h
        by_cases h₂ : jsLength username.data > 16
        · exact Or.inr (Or.inr h₂)
        · simp only [h₂, if_false] at h
          exact absurd h (hadd _ _)
    · intro h
      by_cases h₁ : username = "" ∨ jsLength (trim username.data) = 0
      · exact ⟨"Username cannot be empty", by simp only [h₁, if_true]⟩
      · have h₂ : jsLength username.data > 16 := by
          rcases h with h | h | h
          · exact absurd (Or.inl h) h₁
          · exact absurd (hempty.mpr (Or.inr h)) h₁
          · exact h
        exact ⟨"Username must be 16 characters or less",
          by simp only [h₁, if_false, h₂, if_true]⟩
  · intro message h
    unfold addOfflineAccount at h
    split at h
    · left; injection h with h; injection h with h; exact h.symm
    · split at h
      · right; injection h with h; injection h with h; exact h.symm
      · exact absurd h (hadd _ _)
  · intro hnot
    have h₁ : ¬ (username = "" ∨ jsLength (trim username.data) = 0) := by
      intro h
      rcases hempty.mp h with h' | h'
      · exact hnot (Or.inl h')
      · exact hnot (Or.inr (Or.inl h'))
    have h₂ : ¬ jsLength username.data > 16 := fun h => hnot (Or.inr (Or.inr h))
    have hcall : addOfflineAccount P env disk username =
        addAccount P env disk
          [("type", .str "offline"), ("username", .str ⟨trim username.data⟩),
           ("uuid", .null), ("accessToken", .null), ("refreshToken", .null)] := by
      simp only [addOfflineAccount, h₁, h₂, if_false]
    refine ⟨hcall, ?_, ?_, ?_⟩
    · have := jsLength_sublist (trim_sublist username.data)
      omega
    · intro store hload
      rw [hcall]
      simp only [addAccount, hload]
      refine ⟨_, rfl, ?_⟩
      obtain ⟨acc, hacc, hget⟩ := addAccountTo_entry store env.now
        [("type", .str "offline"), ("username", .str ⟨trim username.data⟩),
         ("uuid", .null), ("accessToken", .null), ("refreshToken", .null)]
      have hrec := offline_record_reads ⟨trim username.data⟩
      refine ⟨acc, hacc, ?_, ?_, ?_, ?_, ?_⟩
      · rw [hget "type" (by decide) (by decide) hrec.1.1]; exact hrec.1.2
      · rw [hget "username" (by decide) (by decide) hrec.2.1.1]; exact hrec.2.1.2
      · rw [hget "uuid" (by decide) (by decide) hrec.2.2.1.1]; exact hrec.2.2.1.2
      · rw [hget "accessToken" (by decide) (by decide) hrec.2.2.2.1.1]
        exact hrec.2.2.2.1.2
      · rw [hget "refreshToken" (by decide) (by decide) hrec.2.2.2.2.1]
        exact hrec.2.2.2.2.2
    · intro accounts selectedAccount hload
      rw [hcall]
      obtain ⟨m, hm⟩ := noSuchMethod_typeError accounts "findIndex"
      exact ⟨m, by simp only [addAccount, hload, hm]⟩

/-- Three names on an absent file: the empty name and a name of twenty characters
are refused, a name of five characters between blanks is accepted. -/
theorem addOfflineAccount_spec_sample :
    (∃ message, addOfflineAccount samplePlatform (sampleEnv 0) .absent "" =
      .error (.error message)) ∧
    (∃ message, addOfflineAccount samplePlatform (sampleEnv 0) .absent
      "a_name_over_16_chars" = .error (.error message)) ∧
    (∃ result, addOfflineAccount samplePlatform (sampleEnv 0) .absent " Steve " =
      .ok result ∧ jsLength (trim " Steve ".data) ≤ 16) :=
  ⟨(addOfflineAccount_spec samplePlatform (sampleEnv 0) .absent "").1.mpr (Or.inl rfl),
   (addOfflineAccount_spec samplePlatform (sampleEnv 0) .absent
      "a_name_over_16_chars").1.mpr (Or.inr (Or.inr (by decide))),
   let h := (addOfflineAccount_spec samplePlatform (sampleEnv 0) .absent " Steve ").2.2
     (by decide)
   let ⟨result, hr, _⟩ := h.2.2.1 Store.empty rfl
   ⟨result, hr, h.2.1⟩⟩

/-- C9 fails on the code, for a name that passes the validation. The file holds
`{}`, JSON without a property `accounts`. The name `"Zed"` is not empty, is not
blank and has three characters, so no validation error is thrown.
`loadAccounts` returns the parsed value as it is, and `addAccount` throws the
`TypeError` of `accounts.accounts.findIndex`: the call fails. `getAllAccounts`
reads the same file as the empty list, for it guards with
`accounts.accounts || []`; on an absent file, which loads as the store without
accounts, the same call adds Zed. -/
theorem addOfflineAccount_throws_without_accounts (P : Platform) (env : Env) :
    ¬ ("Zed" = "" ∨ (∀ c ∈ "Zed".data, isTrimmed c = true) ∨ jsLength "Zed".data > 16) ∧
    loadAccounts P sampleEmptyObjectDisk = .noAccounts .undefined .undefined ∧
    addOfflineAccount P env sampleEmptyObjectDisk "Zed" =
      .error (.typeError "Cannot read properties of undefined (reading \x27findIndex\x27)") ∧
    getAllAccounts P sampleEmptyObjectDisk = [] ∧
    (∃ result, addOfflineAccount P env .absent "Zed" = .ok result ∧
      result.1.accounts.map (fun a => (a.get "type", a.get "username")) =
        [(.str "offline", .str "Zed")]) := by
  refine ⟨by decide, rfl, ?_, rfl, ?_⟩
  · rfl
  · exact ⟨_, rfl, rfl⟩

/-! ## The sample platform is lawful -/

theorem sampleDecodeChars_encode (cs : List Char) :
    sampleDecodeChars (sampleEncodeChars cs) = cs := by
  induction cs with
  | nil => rfl
  | cons c rest ih =>
      simp only [sampleEncodeChars, sampleDecodeChars, ih]
      congr 1
      have hc : c.toNat < 1114112 := by
        rcases c.valid with h | h
        · have : c.toNat < 55296 := h
          omega
        · exact h.2
      have hval : 65536 * (Fin.ofNat (c.toNat / 65536) : Byte).val +
          256 * (Fin.ofNat (c.toNat / 256 % 256) : Byte).val +
          (Fin.ofNat (c.toNat % 256) : Byte).val = c.toNat := by
        simp only [Fin.ofNat]
        omega
      rw [hval]
      exact Char.ofNat_toNat c

theorem samplePlatform_lawful : samplePlatform.Lawful := by
  refine ⟨?_, ?_, ?_⟩
  · intro m; simp [samplePlatform]
  · intro s; simp [samplePlatform, sampleDecodeChars_encode]
  · intro key iv plain _ _
    simp [samplePlatform, List.dropLast_concat, Function.comp_def]

/-! ## The cipher -/

theorem hexDigit_facts : ∀ n : Fin 16,
    hexValue (hexDigit n.val) = some n.val ∧ hexDigit n.val ≠ ':' ∧
      (hexDigit n.val).toNat < 65536 := by
  decide

theorem byte_digits (b : Byte) :
    ∃ h l : Fin 16, b.val / 16 = h.val ∧ b.val % 16 = l.val ∧ b = Fin.ofNat (16 * h.val + l.val) := by
  refine ⟨⟨b.val / 16, by have := b.isLt; omega⟩, ⟨b.val % 16, by omega⟩, rfl, rfl, ?_⟩
  apply Fin.ext
  simp only [Fin.ofNat]
  have := b.isLt
  show b.val = (16 * (b.val / 16) + b.val % 16) % (255 + 1)
  omega

theorem hexDecode_hexEncode (bytes : List Byte) : hexDecode (hexEncode bytes) = bytes := by
  induction bytes with
  | nil => rfl
  | cons b rest ih =>
      obtain ⟨h, l, hh, hl, hb⟩ := byte_digits b
      simp only [hexEncode, hexDecode, hh, hl, (hexDigit_facts h).1, (hexDigit_facts l).1, ih]
      rw [← hb]

theorem hexEncode_no_colon (bytes : List Byte) : ∀ c ∈ hexEncode bytes, c ≠ ':' := by
  induction bytes with
  | nil => simp [hexEncode]
  | cons b rest ih =>
      obtain ⟨h, l, hh, hl, _⟩ := byte_digits b
      intro c hc
      simp only [hexEncode, hh, hl, List.mem_cons] at hc
      rcases hc with rfl | rfl | hc
      · exact (hexDigit_facts h).2.1
      · exact (hexDigit_facts l).2.1
      · exact ih c hc

theorem hexEncode_length (bytes : List Byte) : (hexEncode bytes).length = 2 * bytes.length := by
  induction bytes with
  | nil => rfl
  | cons b rest ih => simp only [hexEncode, List.length_cons, ih]; omega

theorem jsLength_hexEncode (bytes : List Byte) :
    jsLength (hexEncode bytes) = 2 * bytes.length := by
  induction bytes with
  | nil => rfl
  | cons b rest ih =>
      obtain ⟨h, l, hh, hl, _⟩ := byte_digits b
      simp only [jsLength, List.map_cons, List.sum_cons, hexEncode, hh, hl,
        (hexDigit_facts h).2.2, (hexDigit_facts l).2.2, if_true, List.length_cons] at ih ⊢
      omega

theorem splitColon_ne_nil (s : List Char) : splitColon s ≠ [] := by
  cases s with
  | nil => simp [splitColon]
  | cons c rest =>
      unfold splitColon
      split
      · simp
      · split <;> simp

theorem splitColon_no_colon (s : List Char) (h : ∀ c ∈ s, c ≠ ':') : splitColon s = [s] := by
  induction s with
  | nil => rfl
  | cons c rest ih =>
      have hc : c ≠ ':' := h c (by simp)
      have hr := ih (fun d hd => h d (by simp [hd]))
      simp only [splitColon, hc, if_false, hr]

theorem splitColon_append (a b : List Char) (h : ∀ c ∈ a, c ≠ ':') :
    splitColon (a ++ ':' :: b) = a :: splitColon b := by
  induction a with
  | nil => simp [splitColon]
  | cons c rest ih =>
      have hc : c ≠ ':' := h c (by simp)
      have hr := ih (fun d hd => h d (by simp [hd]))
      rw [List.cons_append, splitColon]
      simp only [hc, if_false, hr]

/-- No field of a split holds a colon. -/
theorem splitColon_fields (s : List Char) : ∀ f ∈ splitColon s, ∀ c ∈ f, c ≠ ':' := by
  induction s with
  | nil => simp [splitColon]
  | cons c rest ih =>
      unfold splitColon
      by_cases hc : c = ':'
      · simp only [hc, if_true]
        intro f hf
        rcases List.mem_cons.mp hf with rfl | hf
        · simp
        · exact ih f hf
      · simp only [hc, if_false]
        cases hs : splitColon rest with
        | nil => exact absurd hs (splitColon_ne_nil rest)
        | cons field fields =>
            simp only []
            rw [hs] at ih
            intro f hf
            rcases List.mem_cons.mp hf with rfl | hf
            · intro d hd
              rcases List.mem_cons.mp hd with rfl | hd
              · exact hc
              · exact ih field (by simp) d hd
            · exact ih f (by simp [hf])

/-- On a lawful platform `decrypt` returns `s` for every string that splits into
the hex of an IV, the hex of the ciphertext of `s` under that IV, and any
further fields. -/
theorem decrypt_framed (P : Platform) (hP : P.Lawful) (iv : IV) (s e : String)
    (rest : List (List Char))
    (hsplit : splitColon e.data = hexEncode iv.val ::
      hexEncode (P.aesCbcEncrypt (getKey P) iv.val (P.utf8Encode s)) :: rest) :
    decrypt P (.str e) = .str s := by
  obtain ⟨hkey, hutf, haes⟩ := hP
  have hk : (getKey P).length = 32 := hkey _
  simp only [decrypt, hsplit, hexDecode_hexEncode, hk, iv.property, IV_LENGTH, and_self,
    if_true, jsLength_hexEncode, Nat.mul_mod_right, haes _ _ _ hk iv.property, hutf]

/-- C7: on a lawful platform, for every string `s` and IV, `encrypt(s)` is the hex
of the IV (32 digits), a colon, and the hex of the ciphertext, and `decrypt`
returns `s` on it. -/
theorem decrypt_encrypt (P : Platform) (hP : P.Lawful) (iv : IV) (s : String) :
    ∃ encrypted : String, ∃ ciphertext : List Byte,
      encrypt P iv (.str s) = some encrypted ∧
      encrypted.data = hexEncode iv.val ++ ':' :: hexEncode ciphertext ∧
      (hexEncode iv.val).length = 32 ∧
      splitColon encrypted.data = [hexEncode iv.val, hexEncode ciphertext] ∧
      decrypt P (.str encrypted) = .str s := by
  have hk : (getKey P).length = 32 := hP.1 _
  have hsplit : splitColon (hexEncode iv.val ++ ':' ::
      hexEncode (P.aesCbcEncrypt (getKey P) iv.val (P.utf8Encode s))) =
      [hexEncode iv.val, hexEncode (P.aesCbcEncrypt (getKey P) iv.val (P.utf8Encode s))] := by
    rw [splitColon_append _ _ (hexEncode_no_colon _),
      splitColon_no_colon _ (hexEncode_no_colon _)]
  refine ⟨⟨hexEncode iv.val ++ ':' ::
      hexEncode (P.aesCbcEncrypt (getKey P) iv.val (P.utf8Encode s))⟩,
    P.aesCbcEncrypt (getKey P) iv.val (P.utf8Encode s), ?_, rfl, ?_, hsplit, ?_⟩
  · simp only [encrypt, hk, if_true]
  · rw [hexEncode_length, iv.property]
  · exact decrypt_framed P hP iv s _ [] hsplit

/-- C7 on the sample platform: the token `"mc-token"` is returned by `decrypt`
from what `encrypt` makes of it. -/
theorem decrypt_encrypt_witness :
    ∃ encrypted : String, encrypt samplePlatform (sampleIV 3) (.str "mc-token") =
      some encrypted ∧ decrypt samplePlatform (.str encrypted) = .str "mc-token" :=
  match decrypt_encrypt samplePlatform samplePlatform_lawful (sampleIV 3) "mc-token" with
  | ⟨encrypted, _, henc, _, _, _, hdec⟩ => ⟨encrypted, henc, hdec⟩


/-- Only the first two fields of the split are read. -/
theorem decrypt_two_fields (P : Platform) (e : String) (ivHex data : List Char)
    (rest : List (List Char)) (hs : splitColon e.data = ivHex :: data :: rest) :
    decrypt P (.str e) = decrypt P (.str ⟨ivHex ++ ':' :: data⟩) := by
  have hf := splitColon_fields e.data
  rw [hs] at hf
  have hsplit : splitColon (ivHex ++ ':' :: data) = [ivHex, data] := by
    rw [splitColon_append _ _ (hf ivHex (by simp)),
      splitColon_no_colon _ (hf data (by simp))]
  simp only [decrypt, hs, hsplit]

/-- On every lawful platform, what `encrypt` returns for a token still decrypts to
the token when a colon and any text are appended to it. -/
theorem decrypt_encrypt_trailing (P : Platform) (hP : P.Lawful) (iv : IV) (s junk : String) :
    ∃ encrypted : String, encrypt P iv (.str s) = some encrypted ∧
      decrypt P (.str ⟨encrypted.data ++ ':' :: junk.data⟩) = .str s := by
  have hk : (getKey P).length = 32 := hP.1 _
  refine ⟨⟨hexEncode iv.val ++ ':' ::
      hexEncode (P.aesCbcEncrypt (getKey P) iv.val (P.utf8Encode s))⟩, ?_, ?_⟩
  · simp only [encrypt, hk, if_true]
  · apply decrypt_framed P hP iv s _ (splitColon junk.data)
    show splitColon ((hexEncode iv.val ++ ':' ::
      hexEncode (P.aesCbcEncrypt (getKey P) iv.val (P.utf8Encode s))) ++ ':' :: junk.data) = _
    rw [List.append_assoc, List.cons_append,
      splitColon_append _ _ (hexEncode_no_colon _),
      splitColon_append _ _ (hexEncode_no_colon _)]

/-- C8, amended: `decrypt` never throws, it returns `null` or a string; it returns
`null` for a value that is not a string, for a string without a colon, and for
a string whose first field does not decode to a 16-byte IV; of a string with
more than one colon only the first two fields are read, so what follows the
second colon has no effect on the result. -/
theorem decrypt_spec (P : Platform) (encrypted : JsVal) (e : String) :
    (decrypt P encrypted = .null ∨ ∃ plain, decrypt P encrypted = .str plain) ∧
    ((∀ s, encrypted ≠ .str s) → decrypt P encrypted = .null) ∧
    ((∀ c ∈ e.data, c ≠ ':') → decrypt P (.str e) = .null) ∧
    ((hexDecode ((splitColon e.data).headD [])).length ≠ 16 → decrypt P (.str e) = .null) ∧
    (∀ ivHex data rest, splitColon e.data = ivHex :: data :: rest →
      decrypt P (.str e) = decrypt P (.str ⟨ivHex ++ ':' :: data⟩)) := by
  refine ⟨?_, ?_, ?_, ?_, ?_⟩
  · cases encrypted with
    | str s =>
        simp only [decrypt]
        repeat' split
        all_goals first | exact Or.inl rfl | exact Or.inr ⟨_, rfl⟩
    | undefined => exact Or.inl rfl
    | null => exact Or.inl rfl
    | bool b => exact Or.inl rfl
    | num n => exact Or.inl rfl
  · intro h
    cases encrypted with
    | str s => exact absurd rfl (h s)
    | undefined => rfl
    | null => rfl
    | bool b => rfl
    | num n => rfl
  · intro h
    simp only [decrypt, splitColon_no_colon _ h]
    split <;> rfl
  · intro h
    unfold decrypt
    simp only []
    cases hs : splitColon e.data with
    | nil => rfl
    | cons ivHex fields =>
        rw [hs] at h
        simp only [List.headD_cons] at h
        simp only [IV_LENGTH, h, and_false, if_false]
  · intro ivHex data rest hs
    exact decrypt_two_fields P e ivHex data rest hs

/-- C8, amended, on `"garbage"`: a string without a colon, for which `decrypt`
returns `null`. -/
theorem decrypt_spec_witness : decrypt samplePlatform (.str "garbage") = .null :=
  (decrypt_spec samplePlatform .null "garbage").2.2.1 (by decide)

/-- C8 as stated fails: the string made of an encrypted token, a second colon and
`junk` is not of the form `<32 hex digits>:<hex ciphertext>`, and `decrypt`
returns the token for it, not `null`. -/
theorem decrypt_ignores_trailing_field :
    sampleTrailingField =
      "000102030405060708090a0b0c0d0e0f:5b5bce5b5bc05b5bbe5b5bcd5b5bc05b5bcf01:junk" ∧
    encrypt samplePlatform (sampleIV 0) (.str "secret") =
      some "000102030405060708090a0b0c0d0e0f:5b5bce5b5bc05b5bbe5b5bcd5b5bc05b5bcf01" ∧
    isCipherText sampleTrailingField.data = false ∧
    decrypt samplePlatform (.str sampleTrailingField) = .str "secret" := by
  refine ⟨by rfl, by rfl, by decide, by decide⟩

/-! ## Saving -/

/-- C3 fails on the code: for a microsoft account whose access token is `null` and
whose refresh token is `"ms-refresh-secret"`, on every platform and with every
IV, the document `saveAccounts` writes holds the refresh token as it was passed,
not as an output of `encrypt`. -/
theorem saveAccounts_refreshToken_plain (P : Platform) (env : Env) (disk : Disk) :
    documentToSave P env.ivs sampleNoAccessToken = some sampleNoAccessToken ∧
    (sampleNoAccessToken.accounts.map (fun a => a.get "refreshToken")) =
      [.str "ms-refresh-secret"] ∧
    isCipherText "ms-refresh-secret".data = false ∧
    (env.writable = true →
      saveAccounts P env disk sampleNoAccessToken = (true, .file sampleNoAccessToken)) := by
  have hdoc : documentToSave P env.ivs sampleNoAccessToken = some sampleNoAccessToken := rfl
  refine ⟨hdoc, by decide, by decide, ?_⟩
  intro hw
  simp only [saveAccounts, hw, if_true, hdoc]


/-- A damaged access token on disk is enough for the refresh token to be written
in the clear: `loadAccounts` reads the access token as `null`, and the next
save, here that of `removeAccount` for an identifier no account has, writes the
refresh token as plaintext. -/
theorem removeAccount_exposes_refreshToken :
    ((getAllAccounts samplePlatform sampleDamagedDisk).map
      (fun a => (a.get "accessToken", a.get "refreshToken"))) =
      [(.null, .str "ms-refresh-secret")] ∧
    (removeAccount samplePlatform (sampleEnv 0) sampleDamagedDisk (.str "nobody")).map
      Prod.snd = .ok (.file sampleNoAccessToken) := by
  refine ⟨by decide, by rfl⟩

/-! ## The interactive login -/

/-- C1 fails on the code: three calls of `authenticateWithMicrosoft` with no
browser event in between. The first opens a window; the second fails with
`Authentication already in progress` and its `catch` clears the flag; the third
therefore opens a second window while the first acquisition is unsettled, and
two acquisitions are in flight. -/
theorem third_login_opens_second_window (newURL : UrlReader) (v₁ v₂ v₃ : String) :
    (run newURL AuthState.initial [.login v₁, .login v₂, .login v₃]).1 =
      [.windowOpened 0, .failed "Authentication already in progress", .windowOpened 1] ∧
    (inFlight (run newURL AuthState.initial [.login v₁, .login v₂, .login v₃]).2).length = 2 ∧
    (run newURL AuthState.initial [.login v₁, .login v₂]).2.authInProgress = false ∧
    (inFlight (run newURL AuthState.initial [.login v₁, .login v₂]).2).length = 1 := by
  refine ⟨rfl, rfl, rfl, rfl⟩

theorem closeWindow_fields (s : Session) :
    (closeWindow s).verifier = s.verifier ∧ (closeWindow s).resolved = s.resolved ∧
      (closeWindow s).settlements = s.settlements := by
  unfold closeWindow
  split <;> exact ⟨rfl, rfl, rfl⟩

/-- An event of a settled acquisition changes neither the flag nor `resolved` nor
the calls of `resolve` and `reject`. -/
theorem onWindowEvent_settled (newURL : UrlReader) (flag : Bool) (s : Session)
    (e : WindowEvent) (h : s.resolved = true) :
    (onWindowEvent newURL flag s e).1 = flag ∧
    (onWindowEvent newURL flag s e).2.resolved = true ∧
    (onWindowEvent newURL flag s e).2.settlements = s.settlements ∧
    (onWindowEvent newURL flag s e).2.verifier = s.verifier := by
  cases e <;> simp [onWindowEvent, handleUrl, h]

/-- An event of an unsettled acquisition settles it exactly when `decision` says
so, with that outcome, and then clears the flag. -/
theorem onWindowEvent_pending (newURL : UrlReader) (flag : Bool) (s : Session)
    (e : WindowEvent) (h : s.resolved = false) (hs : s.settlements = []) :
    (onWindowEvent newURL flag s e).2.verifier = s.verifier ∧
    match decision newURL s.verifier e with
    | some o =>
        (onWindowEvent newURL flag s e).1 = false ∧
        (onWindowEvent newURL flag s e).2.resolved = true ∧
        (onWindowEvent newURL flag s e).2.settlements = [o]
    | none =>
        (onWindowEvent newURL flag s e).1 = flag ∧
        (onWindowEvent newURL flag s e).2.resolved = false ∧
        (onWindowEvent newURL flag s e).2.settlements = [] := by
  have hurl : ∀ url : String,
      (handleUrl newURL flag s url).2.verifier = s.verifier ∧
      match (if includes url.data redirectTarget.data then
          match newURL url with
          | .ok urlObj =>
              if present urlObj.code then
                some (Outcome.resolved (urlObj.code.getD "") s.verifier)
              else if present urlObj.error then
                some (Outcome.rejected ("Auth error: " ++ urlObj.error.getD ""))
              else none
          | .error err => some (Outcome.rejected err)
        else none) with
      | some o =>
          (handleUrl newURL flag s url).1 = false ∧
          (handleUrl newURL flag s url).2.resolved = true ∧
          (handleUrl newURL flag s url).2.settlements = [o]
      | none =>
          (handleUrl newURL flag s url).1 = flag ∧
          (handleUrl newURL flag s url).2.resolved = false ∧
          (handleUrl newURL flag s url).2.settlements = [] := by
    intro url
    unfold handleUrl
    simp only [h, Bool.false_eq_true, if_false]
    by_cases hinc : includes url.data redirectTarget.data = true
    · simp only [hinc, if_true]
      cases hp : newURL url with
      | error err =>
          simp [settle, hs, (closeWindow_fields s).1]
      | ok urlObj =>
          simp only []
          by_cases hc : present urlObj.code = true
          · simp [hc, settle, hs, (closeWindow_fields s).1]
          · by_cases he : present urlObj.error = true
            · simp [hc, he, settle, hs, (closeWindow_fields s).1]
            · simp [hc, he, h, hs]
    · simp [hinc, h, hs]
  cases e with
  | closed => simp [onWindowEvent, decision, h, hs]
  | willRedirect url => exact hurl url
  | didNavigate url => exact hurl url
  | willNavigate url => exact hurl url
  | didFailLoad url => exact hurl url

theorem onWindowEvents_append (newURL : UrlReader) (flag : Bool) (s : Session)
    (a b : List WindowEvent) :
    onWindowEvents newURL flag s (a ++ b) =
      onWindowEvents newURL (onWindowEvents newURL flag s a).1
        (onWindowEvents newURL flag s a).2 b := by
  induction a generalizing flag s with
  | nil => rfl
  | cons e rest ih =>
      rw [List.cons_append, onWindowEvents, onWindowEvents]
      exact ih _ _

/-- Events of a settled acquisition are without effect on the flag and on the
promise. -/
theorem onWindowEvents_settled (newURL : UrlReader) (flag : Bool) (s : Session)
    (events : List WindowEvent) (h : s.resolved = true) :
    (onWindowEvents newURL flag s events).1 = flag ∧
    (onWindowEvents newURL flag s events).2.resolved = true ∧
    (onWindowEvents newURL flag s events).2.settlements = s.settlements := by
  induction events generalizing flag s with
  | nil => exact ⟨rfl, h, rfl⟩
  | cons e rest ih =>
      obtain ⟨h₁, h₂, h₃, _⟩ := onWindowEvent_settled newURL flag s e h
      obtain ⟨i₁, i₂, i₃⟩ := ih (onWindowEvent newURL flag s e).1
        (onWindowEvent newURL flag s e).2 h₂
      simp only [onWindowEvents]
      exact ⟨i₁.trans h₁, i₂, i₃.trans h₃⟩

/-- The calls of `resolve` and `reject` of an unsettled acquisition under a
sequence of events: one call, for the first deciding event, or none. -/
theorem onWindowEvents_pending (newURL : UrlReader) (flag : Bool) (s : Session)
    (events : List WindowEvent) (h : s.resolved = false) (hs : s.settlements = []) :
    (onWindowEvents newURL flag s events).2.settlements =
      ((events.filterMap (decision newURL s.verifier)).head?).toList ∧
    ((onWindowEvents newURL flag s events).2.resolved =
      ((events.filterMap (decision newURL s.verifier)).head?).isSome) ∧
    ((onWindowEvents newURL flag s events).1 =
      if ((events.filterMap (decision newURL s.verifier)).head?).isSome then false
      else flag) := by
  induction events generalizing flag s with
  | nil => simp [onWindowEvents, h, hs]
  | cons e rest ih =>
      obtain ⟨hv, hd⟩ := onWindowEvent_pending newURL flag s e h hs
      simp only [onWindowEvents]
      cases hdec : decision newURL s.verifier e with
      | some o =>
          rw [hdec] at hd
          obtain ⟨h₁, h₂, h₃⟩ := hd
          obtain ⟨i₁, i₂, i₃⟩ := onWindowEvents_settled newURL
            (onWindowEvent newURL flag s e).1 (onWindowEvent newURL flag s e).2 rest h₂
          simp only [List.filterMap_cons, hdec, List.head?_cons, Option.toList,
            Option.isSome_some, if_true]
          exact ⟨i₃.trans h₃, i₂, i₁.trans h₁⟩
      | none =>
          rw [hdec] at hd
          obtain ⟨h₁, h₂, h₃⟩ := hd
          obtain ⟨i₁, i₂, i₃⟩ := ih (onWindowEvent newURL flag s e).1
            (onWindowEvent newURL flag s e).2 h₂ h₃
          rw [hv] at i₁ i₂ i₃
          simp only [List.filterMap_cons, hdec]
          exact ⟨i₁, i₂, by rw [i₃, h₁]⟩

/-- C2, amended: in one acquisition, for every sequence of events, `resolve` and
`reject` are called at most once in total; the outcome is that of the first
event that is the closing of the window or carries a redirect URL holding a
code, holding an error, or failing to parse; that event clears the flag; and
every event after it leaves the outcome, `resolved` and the flag as they are. -/
theorem settles_once (newURL : UrlReader) (authInProgress : Bool) (verifier : String)
    (events later : List WindowEvent) :
    ((onWindowEvents newURL authInProgress (Session.fresh verifier) events).2.settlements.length
      ≤ 1) ∧
    (onWindowEvents newURL authInProgress (Session.fresh verifier) events).2.outcome =
      (events.filterMap (decision newURL verifier)).head? ∧
    ((onWindowEvents newURL authInProgress (Session.fresh verifier) events).2.resolved =
      ((events.filterMap (decision newURL verifier)).head?).isSome) ∧
    ((onWindowEvents newURL authInProgress (Session.fresh verifier) events).1 =
      if ((events.filterMap (decision newURL verifier)).head?).isSome then false
      else authInProgress) ∧
    ((onWindowEvents newURL authInProgress (Session.fresh verifier) events).2.resolved = true →
      (onWindowEvents newURL authInProgress (Session.fresh verifier)
          (events ++ later)).2.settlements =
        (onWindowEvents newURL authInProgress (Session.fresh verifier) events).2.settlements ∧
      (onWindowEvents newURL authInProgress (Session.fresh verifier)
          (events ++ later)).2.resolved = true ∧
      (onWindowEvents newURL authInProgress (Session.fresh verifier) (events ++ later)).1 =
        (onWindowEvents newURL authInProgress (Session.fresh verifier) events).1) := by
  obtain ⟨h₁, h₂, h₃⟩ := onWindowEvents_pending newURL authInProgress
    (Session.fresh verifier) events rfl rfl
  have hv : (Session.fresh verifier).verifier = verifier := rfl
  rw [hv] at h₁ h₂ h₃
  refine ⟨?_, ?_, h₂, h₃, ?_⟩
  · rw [h₁]
    cases (events.filterMap (decision newURL verifier)).head? <;> simp
  · rw [Session.outcome, h₁]
    cases (events.filterMap (decision newURL verifier)).head? <;> rfl
  · intro hres
    rw [onWindowEvents_append]
    obtain ⟨i₁, i₂, i₃⟩ := onWindowEvents_settled newURL
      (onWindowEvents newURL authInProgress (Session.fresh verifier) events).1
      (onWindowEvents newURL authInProgress (Session.fresh verifier) events).2 later hres
    exact ⟨i₃, i₂, i₁⟩

/-- C2, amended, on a run: after the redirect with a code and the closing of the
window that follows, later events change nothing. -/
theorem settles_once_witness :
    (onWindowEvents sampleURL true (Session.fresh "verifier")
      ([.willRedirect "https://login.live.com/oauth20_desktop.srf?code=M.C507&lc=1033",
        .closed] ++
       [.didFailLoad "https://login.live.com/oauth20_desktop.srf?error=access_denied",
        .closed])).2.settlements =
    [.resolved "M.C507" "verifier"] := by
  rw [((settles_once sampleURL true "verifier"
    [.willRedirect "https://login.live.com/oauth20_desktop.srf?code=M.C507&lc=1033", .closed]
    [.didFailLoad "https://login.live.com/oauth20_desktop.srf?error=access_denied",
      .closed]).2.2.2.2 (by decide)).1]
  decide

/-- C2 as stated fails: a navigation to a reference that holds the redirect target
and cannot be parsed comes first, the redirect with a code second. Of the three
kinds of event the specification lists, the redirect with a code is the first,
but the promise is rejected with the parse error of the navigation before it. -/
theorem parse_failure_settles_first :
    (sampleEvents.filterMap (listedDecision sampleURL "verifier")).head? =
      some (.resolved "M.C507" "verifier") ∧
    (onWindowEvents sampleURL true (Session.fresh "verifier") sampleEvents).2.outcome =
      some (.rejected "Invalid URL") := by
  decide


/-! ## The federation chain -/

/-- When the token exchange and Xbox Live succeeded with a body, the login throws
what `authenticateXSTS` throws, and its `catch` clears the flag. -/
theorem finishLogin_xsts_failure (net : Network) (now : Int) (st : AuthState)
    (msToken xblAuth : Obj) (error : RequestError) (thrown : Thrown)
    (htoken : getMicrosoftToken net.token = .ok (some msToken))
    (hxbl : authenticateXboxLive net.xboxLive = .ok (some xblAuth))
    (hxsts : net.xsts = .error error)
    (hthrown : authenticateXSTS (.error error) = .error thrown) :
    finishLogin net now st = (.error thrown, { st with authInProgress := false }) := by
  have hchain : loginChain net now = .error thrown := by
    unfold loginChain
    rw [htoken, hxbl, hxsts, hthrown]
    rfl
  simp only [finishLogin, hchain]

/-- C11: for a failed XSTS request, `authenticateXSTS` throws the error about the
missing Xbox account when `XErr` is 2148916233, the error about the child
account when `XErr` is 2148916238, and the error of the request itself for every
other `XErr` and when there is none; `authenticateWithMicrosoft` throws the very
value `authenticateXSTS` threw. -/
theorem authenticateXSTS_translation (error : RequestError) (net : Network) (now : Int)
    (st : AuthState) :
    (xErrOf error = .num 2148916233 →
      authenticateXSTS (.error error) = .error (.error
        "This Microsoft account doesn\x27t have an Xbox account. Create one at xbox.com")) ∧
    (xErrOf error = .num 2148916238 →
      authenticateXSTS (.error error) = .error (.error
        "This is a child account. It must be added to a Family by an adult")) ∧
    (xErrOf error ≠ .num 2148916233 → xErrOf error ≠ .num 2148916238 →
      authenticateXSTS (.error error) = .error (.request error)) ∧
    (xErrOf error = .undefined → authenticateXSTS (.error error) = .error (.request error)) ∧
    (∀ msToken xblAuth thrown,
      getMicrosoftToken net.token = .ok (some msToken) →
      authenticateXboxLive net.xboxLive = .ok (some xblAuth) →
      net.xsts = .error error →
      authenticateXSTS (.error error) = .error thrown →
      (finishLogin net now st).1 = .error thrown) := by
  refine ⟨?_, ?_, ?_, ?_, ?_⟩
  · intro h
    simp only [authenticateXSTS, h]
    rfl
  · intro h
    simp only [authenticateXSTS, h]
    rfl
  · intro h₁ h₂
    simp only [authenticateXSTS, h₁, h₂, if_false]
    split <;> rfl
  · intro h
    simp only [authenticateXSTS, h]
    rfl
  · intro msToken xblAuth thrown htoken hxbl hxsts hthrown
    rw [finishLogin_xsts_failure net now st msToken xblAuth error thrown htoken hxbl hxsts
      hthrown]

/-- C11 on three failed XSTS responses behind a successful token exchange and Xbox
Live login: `XErr` 2148916233 reaches the caller of the login as the error about
the Xbox account, 2148916238 as the error about the child account, and
2148916235 as the error of the request. -/
theorem authenticateXSTS_translation_witness :
    (finishLogin { sampleNetwork (.num 3600) with
        xsts := .error (sampleXstsError (.num 2148916233)) } 0 AuthState.initial).1 =
      .error (.error
        "This Microsoft account doesn\x27t have an Xbox account. Create one at xbox.com") ∧
    (finishLogin { sampleNetwork (.num 3600) with
        xsts := .error (sampleXstsError (.num 2148916238)) } 0 AuthState.initial).1 =
      .error (.error "This is a child account. It must be added to a Family by an adult") ∧
    (finishLogin { sampleNetwork (.num 3600) with
        xsts := .error (sampleXstsError (.num 2148916235)) } 0 AuthState.initial).1 =
      .error (.request (sampleXstsError (.num 2148916235))) :=
  ⟨(authenticateXSTS_translation (sampleXstsError (.num 2148916233))
      { sampleNetwork (.num 3600) with xsts := .error (sampleXstsError (.num 2148916233)) }
      0 AuthState.initial).2.2.2.2 _ _ _ rfl rfl rfl
      ((authenticateXSTS_translation (sampleXstsError (.num 2148916233))
        (sampleNetwork (.num 3600)) 0 AuthState.initial).1 (by decide)),
   (authenticateXSTS_translation (sampleXstsError (.num 2148916238))
      { sampleNetwork (.num 3600) with xsts := .error (sampleXstsError (.num 2148916238)) }
      0 AuthState.initial).2.2.2.2 _ _ _ rfl rfl rfl
      ((authenticateXSTS_translation (sampleXstsError (.num 2148916238))
        (sampleNetwork (.num 3600)) 0 AuthState.initial).2.1 (by decide)),
   (authenticateXSTS_translation (sampleXstsError (.num 2148916235))
      { sampleNetwork (.num 3600) with xsts := .error (sampleXstsError (.num 2148916235)) }
      0 AuthState.initial).2.2.2.2 _ _ _ rfl rfl rfl
      ((authenticateXSTS_translation (sampleXstsError (.num 2148916235))
        (sampleNetwork (.num 3600)) 0 AuthState.initial).2.2.1 (by decide) (by decide))⟩


/-! ## The expiry of a result -/

/-- What the expression for `expiresAt` gives: the sum with `n * 1000` for a
number `n` other than zero, and the sum with the default of 3600 seconds for
zero as for a missing or `null` value. -/
theorem expiresAt_values (now n : Int) :
    (n ≠ 0 → expiresAt now (.num n) = some (now + n * 1000)) ∧
    expiresAt now (.num 0) = some (now + 3600 * 1000) ∧
    expiresAt now .undefined = some (now + 3600 * 1000) ∧
    expiresAt now .null = some (now + 3600 * 1000) := by
  refine ⟨?_, rfl, rfl, rfl⟩
  intro hn
  simp [expiresAt, JsVal.truthy, toNumber, hn]

/-- A successful login returns the `expiresAt` computed from the `expires_in` of
the body the token endpoint answered with. -/
theorem loginChain_expiresAt (net : Network) (now : Int) (result : AuthResult)
    (h : loginChain net now = .ok result) :
    ∃ msToken, getMicrosoftToken net.token = .ok (some msToken) ∧
      result.expiresAt = expiresAt now (msToken.get "expires_in") := by
  unfold loginChain at h
  cases h₁ : getMicrosoftToken net.token with
  | error e => rw [h₁] at h; cases h
  | ok msToken =>
      cases msToken with
      | none => rw [h₁] at h; cases h
      | some msToken =>
          refine ⟨msToken, rfl, ?_⟩
          rw [h₁] at h
          simp only [readProperty, bind, Except.bind, pure, Except.pure] at h
          repeat' split at h
          all_goals cases h
          all_goals rfl

/-- A successful refresh likewise. -/
theorem refreshAccessToken_expiresAt (net : Network) (now : Int) (result : AuthResult)
    (h : refreshAccessToken net now = .ok result) :
    ∃ response msToken, net.token = .ok response ∧ response.data = some msToken ∧
      result.expiresAt = expiresAt now (msToken.get "expires_in") := by
  unfold refreshAccessToken at h
  cases hc : refreshChain net now with
  | error e => rw [hc] at h; cases h
  | ok r =>
      rw [hc] at h
      injection h with h
      subst h
      unfold refreshChain at hc
      cases h₁ : net.token with
      | error e => rw [h₁] at hc; cases hc
      | ok response =>
          cases h₂ : response.data with
          | none => rw [h₁] at hc; simp only [h₂] at hc; cases hc
          | some msToken =>
              refine ⟨response, msToken, rfl, h₂, ?_⟩
              rw [h₁] at hc
              simp only [h₂, readProperty, bind, Except.bind, pure, Except.pure] at hc
              repeat' split at hc
              all_goals cases hc
              all_goals rfl

/-- C13 fails on the code: when every stage succeeds and the token endpoint
answers `expires_in: 0`, the login and the refresh both return
`expiresAt = now + 3600 * 1000`, the default, not `now + 0 * 1000`. -/
theorem expires_in_zero_gets_default (now : Int) :
    (loginChain (sampleNetwork (.num 0)) now).map (fun r => r.expiresAt) =
      .ok (some (now + 3600 * 1000)) ∧
    (refreshAccessToken (sampleNetwork (.num 0)) now).map (fun r => r.expiresAt) =
      .ok (some (now + 3600 * 1000)) ∧
    (loginChain (sampleNetwork (.num 7200)) now).map (fun r => r.expiresAt) =
      .ok (some (now + 7200 * 1000)) ∧
    expiresAt now (.num 0) = some (now + 3600 * 1000) := by
  refine ⟨rfl, rfl, rfl, rfl⟩


/-! ## The release of the guard -/

theorem getLast?_set_unsettled (l : List Session) (i : Nat) (s' : Session)
    (hs' : s'.settlements = [])
    (h : ∃ s, l.getLast? = some s ∧ s.settlements = []) :
    ∃ s, (l.set i s').getLast? = some s ∧ s.settlements = [] := by
  obtain ⟨s, hl, hs⟩ := h
  rw [List.getLast?_eq_getElem?] at hl ⊢
  rw [List.length_set, List.getElem?_set]
  by_cases hi : i = l.length - 1
  · have hlt : l.length - 1 < l.length := by
      by_contra hge
      rw [List.getElem?_eq_none (by omega)] at hl
      cases hl
    simp only [hi, if_true, hlt]
    exact ⟨s', rfl, hs'⟩
  · simp only [hi, if_false]
    exact ⟨s, hl, hs⟩

theorem getLast?_set_same (l : List Session) (i : Nat) (s s' : Session)
    (hget : l.get? i = some s) (hsame : s'.settlements = s.settlements)
    (h : ∃ t, l.getLast? = some t ∧ t.settlements = []) :
    ∃ t, (l.set i s').getLast? = some t ∧ t.settlements = [] := by
  obtain ⟨t, hl, ht⟩ := h
  rw [List.getLast?_eq_getElem?] at hl ⊢
  rw [List.length_set, List.getElem?_set]
  by_cases hi : i = l.length - 1
  · have hlt : l.length - 1 < l.length := by
      by_contra hge
      rw [List.getElem?_eq_none (by omega)] at hl
      cases hl
    simp only [hi, if_true, hlt]
    rw [List.get?_eq_getElem?, hi, hl] at hget
    injection hget with hget
    exact ⟨s', rfl, by rw [hsame, ← hget]; exact ht⟩
  · simp only [hi, if_false]
    exact ⟨t, hl, ht⟩

/-- Every step keeps the invariant of the guard. -/
theorem step_invariant (newURL : UrlReader) (st : AuthState) (a : Action)
    (h : GuardInvariant st) : GuardInvariant (step newURL st a).2 := by
  obtain ⟨hres, hflag⟩ := h
  cases a with
  | login verifier =>
      by_cases hp : st.authInProgress = true
      · refine ⟨?_, ?_⟩
        · simpa [step, authenticateWithMicrosoft, getMicrosoftAuthCode, hp] using hres
        · simp [step, authenticateWithMicrosoft, getMicrosoftAuthCode, hp]
      · refine ⟨?_, ?_⟩
        · intro s hs
          simp only [step, authenticateWithMicrosoft, getMicrosoftAuthCode, hp,
            Bool.false_eq_true, if_false, List.mem_append, List.mem_singleton] at hs
          rcases hs with hs | hs
          · exact hres s hs
          · subst hs; simp [Session.fresh]
        · intro _
          refine ⟨Session.fresh verifier, ?_, rfl⟩
          simp [step, authenticateWithMicrosoft, getMicrosoftAuthCode, hp]
  | window index event =>
      cases hget : st.sessions.get? index with
      | none =>
          simp only [step, hget]
          exact ⟨hres, hflag⟩
      | some s =>
          have hmem : s ∈ st.sessions := List.get?_mem hget
          simp only [step, hget]
          by_cases hr : s.resolved = true
          · obtain ⟨h₁, h₂, h₃, _⟩ := onWindowEvent_settled newURL st.authInProgress s event hr
            have hne : s.settlements ≠ [] := by
              intro he
              have := (hres s hmem).mpr he
              rw [hr] at this
              cases this
            have hemp : s.settlements.isEmpty = false := by
              cases hs : s.settlements with
              | nil => exact absurd hs hne
              | cons a l => rfl
            refine ⟨?_, ?_⟩
            · intro t ht
              rcases List.mem_or_eq_of_mem_set ht with ht | ht
              · exact hres t ht
              · subst ht
                rw [h₂, h₃]
                constructor
                · intro hc; cases hc
                · intro hc; exact absurd hc hne
            · intro hp
              simp only [hemp, Bool.false_and, Bool.false_eq_true, if_false, h₁] at hp
              exact getLast?_set_same _ _ s _ hget h₃ (hflag hp)
          · have hr' : s.resolved = false := by simpa using hr
            have hs : s.settlements = [] := (hres s hmem).mp hr'
            obtain ⟨_, hd⟩ := onWindowEvent_pending newURL st.authInProgress s event hr' hs
            cases hdec : decision newURL s.verifier event with
            | some o =>
                rw [hdec] at hd
                obtain ⟨h₁, h₂, h₃⟩ := hd
                refine ⟨?_, ?_⟩
                · intro t ht
                  rcases List.mem_or_eq_of_mem_set ht with ht | ht
                  · exact hres t ht
                  · subst ht
                    rw [h₂, h₃]
                    simp
                · intro hp
                  simp only [h₁, ite_self] at hp
                  cases hp
            | none =>
                rw [hdec] at hd
                obtain ⟨h₁, h₂, h₃⟩ := hd
                refine ⟨?_, ?_⟩
                · intro t ht
                  rcases List.mem_or_eq_of_mem_set ht with ht | ht
                  · exact hres t ht
                  · subst ht
                    rw [h₂, h₃]
                    simp
                · intro hp
                  have hout : (onWindowEvent newURL st.authInProgress s event).2.outcome =
                      none := by
                    rw [Session.outcome, h₃]; rfl
                  simp only [hout, Bool.and_false, Bool.false_eq_true, if_false, h₁] at hp
                  exact getLast?_set_unsettled _ _ _ h₃ (hflag hp)
  | stageFailed index =>
      cases hget : st.sessions.get? index with
      | none =>
          simp only [step, hget]
          exact ⟨hres, hflag⟩
      | some s =>
          simp only [step, hget]
          split
          · exact ⟨hres, fun hp => by cases hp⟩
          · exact ⟨hres, hflag⟩

/-- Every state reached from a state with the invariant has it. -/
theorem run_invariant (newURL : UrlReader) (st : AuthState) (actions : List Action)
    (h : GuardInvariant st) : GuardInvariant (run newURL st actions).2 := by
  induction actions generalizing st with
  | nil => exact h
  | cons a rest ih =>
      simp only [run]
      exact ih _ (step_invariant newURL st a h)

theorem initial_invariant : GuardInvariant AuthState.initial :=
  ⟨fun s hs => by simp [AuthState.initial] at hs, fun hp => by cases hp⟩

/-- C12: in every state the module reaches, an event that settles an unsettled
acquisition (a redirect URL with a code, with an error or failing to parse, or
the closing of the window) leaves `authInProgress` false, and so does the
failure of a later stage of `authenticateWithMicrosoft`; and whenever no
acquisition is outstanding the flag is false, so that the next call of
`authenticateWithMicrosoft` opens a window instead of being rejected. -/
theorem guard_released (newURL : UrlReader) (actions : List Action) (net : Network)
    (now : Int) (st : AuthState) (hreach : st = (run newURL AuthState.initial actions).2) :
    (∀ index event s o, st.sessions.get? index = some s → s.settlements = [] →
      decision newURL s.verifier event = some o →
      (step newURL st (.window index event)).2.authInProgress = false ∧
      ((step newURL st (.window index event)).2.sessions.get? index).map Session.outcome =
        some (some o)) ∧
    (∀ thrown, (finishLogin net now st).1 = .error thrown →
      (finishLogin net now st).2.authInProgress = false) ∧
    (∀ index s code verifier, st.sessions.get? index = some s →
      s.outcome = some (.resolved code verifier) →
      (step newURL st (.stageFailed index)).2.authInProgress = false) ∧
    (inFlight st = [] →
      st.authInProgress = false ∧
      ∀ verifier, (authenticateWithMicrosoft st verifier).1 =
        .windowOpened st.sessions.length) := by
  have hinv : GuardInvariant st := by
    rw [hreach]
    exact run_invariant newURL _ actions initial_invariant
  obtain ⟨hres, hflag⟩ := hinv
  refine ⟨?_, ?_, ?_, ?_⟩
  · intro index event s o hget hs hdec
    have hmem : s ∈ st.sessions := List.get?_mem hget
    have hr : s.resolved = false := (hres s hmem).mpr hs
    obtain ⟨_, hd⟩ := onWindowEvent_pending newURL st.authInProgress s event hr hs
    rw [hdec] at hd
    obtain ⟨h₁, _, h₃⟩ := hd
    have hlt : index < st.sessions.length := by
      rw [List.get?_eq_getElem?] at hget
      by_contra hge
      rw [List.getElem?_eq_none (by omega)] at hget
      cases hget
    simp only [step, hget, h₁, ite_self, List.get?_eq_getElem?, List.getElem?_set, if_true,
      hlt, Option.map_some', Session.outcome, h₃, List.head?_cons, and_self]
  · intro thrown h
    unfold finishLogin at h ⊢
    cases hc : loginChain net now with
    | ok result => rw [hc] at h; cases h
    | error e => rfl
  · intro index s code verifier hget hout
    simp only [step, hget, hout]
  · intro hnone
    have hfalse : st.authInProgress = false := by
      by_contra hp
      have hp' : st.authInProgress = true := by simpa using hp
      obtain ⟨s, hlast, hs⟩ := hflag hp'
      have hmem : s ∈ st.sessions := List.mem_of_getLast?_eq_some hlast
      have : s ∈ inFlight st := by
        simp only [inFlight, List.mem_filter]
        exact ⟨hmem, by rw [hs]; rfl⟩
      rw [hnone] at this
      cases this
    refine ⟨hfalse, fun verifier => ?_⟩
    simp [authenticateWithMicrosoft, getMicrosoftAuthCode, hfalse]

/-- C12 on a run: a login, the redirect with a code, and the failure of a later
stage. No acquisition is outstanding afterwards, the flag is false, and the
next login opens the second window. -/
theorem guard_released_witness :
    (run sampleURL AuthState.initial
      [.login "v1",
       .window 0 (.willRedirect
         "https://login.live.com/oauth20_desktop.srf?code=M.C507&lc=1033"),
       .stageFailed 0]).2.authInProgress = false ∧
    (authenticateWithMicrosoft (run sampleURL AuthState.initial
      [.login "v1",
       .window 0 (.willRedirect
         "https://login.live.com/oauth20_desktop.srf?code=M.C507&lc=1033"),
       .stageFailed 0]).2 "v2").1 = .windowOpened 1 :=
  ⟨((guard_released sampleURL
      [.login "v1",
       .window 0 (.willRedirect
         "https://login.live.com/oauth20_desktop.srf?code=M.C507&lc=1033"),
       .stageFailed 0] (sampleNetwork (.num 3600)) 0 _ rfl).2.2.2 (by decide)).1,
   ((guard_released sampleURL
      [.login "v1",
       .window 0 (.willRedirect
         "https://login.live.com/oauth20_desktop.srf?code=M.C507&lc=1033"),
       .stageFailed 0] (sampleNetwork (.num 3600)) 0 _ rfl).2.2.2 (by decide)).2 "v2"⟩


/-! ## The round trip through the file -/

/-- On a lawful platform, what `encrypt` returned for a string is a non-empty
string from which `decrypt` returns the original. -/
theorem decrypt_of_encrypted (P : Platform) (hP : P.Lawful) (iv : IV) (s e : String)
    (h : encrypt P iv (.str s) = some e) :
    decrypt P (.str e) = .str s ∧ (JsVal.str e).truthy = true := by
  have hk : (getKey P).length = 32 := hP.1 _
  simp only [encrypt, hk, if_true, Option.some.injEq] at h
  subst h
  constructor
  · apply decrypt_framed P hP iv s _ []
    show splitColon (hexEncode iv.val ++ ':' ::
      hexEncode (P.aesCbcEncrypt (getKey P) iv.val (P.utf8Encode s))) = _
    rw [splitColon_append _ _ (hexEncode_no_colon _),
      splitColon_no_colon _ (hexEncode_no_colon _)]
  · have hne : (hexEncode iv.val ++ ':' ::
        hexEncode (P.aesCbcEncrypt (getKey P) iv.val (P.utf8Encode s))) ≠ [] := by simp
    simp only [JsVal.truthy, decide_eq_true_eq, ne_eq]
    intro hc
    exact hne (congrArg String.data hc)

/-- A truthy value that is a string or `null` is a string. -/
theorem truthy_string {v : JsVal} (hs : isStringOrNull v = true) (ht : v.truthy = true) :
    ∃ s, v = .str s := by
  cases v with
  | str s => exact ⟨s, rfl⟩
  | null => cases ht
  | undefined => cases hs
  | bool b => cases hs
  | num n => cases hs

/-- One account through `saveAccounts` and `loadAccounts`: every property reads as
before. -/
theorem account_round_trip (P : Platform) (hP : P.Lawful) (iv₁ iv₂ : IV) (account enc : Obj)
    (ha : isStringOrNull (account.get "accessToken") = true)
    (hr : isStringOrNull (account.get "refreshToken") = true)
    (h : encryptAccount P iv₁ iv₂ account = some enc) (k : String) :
    (decryptAccount P (jsonObj enc)).get k = account.get k := by
  unfold encryptAccount at h
  by_cases hc : account.get "type" = .str "microsoft" ∧
      (account.get "accessToken").truthy = true
  · simp only [hc, and_self, if_true] at h
    obtain ⟨a, hacc⟩ := truthy_string ha hc.2
    rw [hacc] at h
    cases hea : encrypt P iv₁ (.str a) with
    | none => simp [hea] at h
    | some ea =>
        obtain ⟨hda, hta⟩ := decrypt_of_encrypted P hP iv₁ a ea hea
        simp only [hea] at h
        have hrefresh : ((account.set "accessToken" (.str ea)).get "refreshToken") =
            account.get "refreshToken" := Obj.get_set_other _ _ _ _ (by decide)
        rw [hrefresh] at h
        by_cases hrt : (account.get "refreshToken").truthy = true
        · simp only [hrt, if_true] at h
          obtain ⟨r, hrv⟩ := truthy_string hr hrt
          rw [hrv] at h
          cases her : encrypt P iv₂ (.str r) with
          | none => simp [her] at h
          | some er =>
              obtain ⟨hdr, htr⟩ := decrypt_of_encrypted P hP iv₂ r er her
              simp only [her, Option.some.injEq] at h
              subst h
              have g₁ : (jsonObj ((account.set "accessToken" (.str ea)).set "refreshToken"
                  (.str er))).get "type" = .str "microsoft" := by
                rw [jsonObj_get, Obj.get_set_other _ _ _ _ (by decide),
                  Obj.get_set_other _ _ _ _ (by decide)]
                exact hc.1
              have g₂ : (jsonObj ((account.set "accessToken" (.str ea)).set "refreshToken"
                  (.str er))).get "accessToken" = .str ea := by
                rw [jsonObj_get, Obj.get_set_other _ _ _ _ (by decide), Obj.get_set_self]
              have g₃ : (jsonObj ((account.set "accessToken" (.str ea)).set "refreshToken"
                  (.str er))).get "refreshToken" = .str er := by
                rw [jsonObj_get, Obj.get_set_self]
              simp only [decryptAccount, g₁, g₂, hta, and_self, if_true, hda,
                Obj.get_set_other _ "accessToken" "refreshToken" _ (by decide), g₃, htr, hdr]
              by_cases hkr : k = "refreshToken"
              · subst hkr
                rw [Obj.get_set_self, hrv]
              · rw [Obj.get_set_other _ _ _ _ (Ne.symm hkr)]
                by_cases hka : k = "accessToken"
                · subst hka
                  rw [Obj.get_set_self, hacc]
                · rw [Obj.get_set_other _ _ _ _ (Ne.symm hka), jsonObj_get,
                    Obj.get_set_other _ _ _ _ (Ne.symm hkr),
                    Obj.get_set_other _ _ _ _ (Ne.symm hka)]
        · simp only [hrt, Bool.false_eq_true, if_false, Option.some.injEq] at h
          subst h
          have g₁ : (jsonObj (account.set "accessToken" (.str ea))).get "type" =
              .str "microsoft" := by
            rw [jsonObj_get, Obj.get_set_other _ _ _ _ (by decide)]
            exact hc.1
          have g₂ : (jsonObj (account.set "accessToken" (.str ea))).get "accessToken" =
              .str ea := by
            rw [jsonObj_get, Obj.get_set_self]
          have g₃ : (jsonObj (account.set "accessToken" (.str ea))).get "refreshToken" =
              account.get "refreshToken" := by
            rw [jsonObj_get, Obj.get_set_other _ _ _ _ (by decide)]
          simp only [decryptAccount, g₁, g₂, hta, and_self, if_true, hda,
            Obj.get_set_other _ "accessToken" "refreshToken" _ (by decide), g₃, hrt,
            Bool.false_eq_true, if_false]
          by_cases hka : k = "accessToken"
          · subst hka
            rw [Obj.get_set_self, hacc]
          · rw [Obj.get_set_other _ _ _ _ (Ne.symm hka), jsonObj_get,
              Obj.get_set_other _ _ _ _ (Ne.symm hka)]
  · simp only [hc, if_false, Option.some.injEq] at h
    subst h
    have hc' : ¬ ((jsonObj account).get "type" = .str "microsoft" ∧
        ((jsonObj account).get "accessToken").truthy = true) := by
      rw [jsonObj_get, jsonObj_get]; exact hc
    unfold decryptAccount
    rw [if_neg hc', jsonObj_get]

theorem Obj.has_of_truthy {o : Obj} {k : String} (h : (o.get k).truthy = true) :
    o.has k = true := by
  by_contra hno
  have hf : o.has k = false := by simpa using hno
  rw [Obj.get_of_not_has o k hf] at h
  cases h

theorem Obj.keys_set (o : Obj) (k : String) (v : JsVal) (h : o.has k = true) :
    (o.set k v).map Prod.fst = o.map Prod.fst := by
  simp only [Obj.set, h, if_true, List.map_map]
  rfl

/-- In a list without a repeated key an entry is read as it stands. -/
theorem Obj.get_of_mem (o : Obj) (hnd : (o.map Prod.fst).Nodup) (kv : String × JsVal)
    (hkv : kv ∈ o) : o.get kv.1 = kv.2 := by
  have hfilter : o.filter (fun e => decide (e.1 = kv.1)) = [kv] := by
    induction o with
    | nil => cases hkv
    | cons e rest ih =>
        simp only [List.map_cons, List.nodup_cons] at hnd
        rcases List.mem_cons.mp hkv with rfl | hmem
        · have hrest : rest.filter (fun e => decide (e.1 = kv.1)) = [] := by
            rw [List.filter_eq_nil_iff]
            intro e he
            simp only [decide_eq_true_eq]
            intro heq
            exact hnd.1 (List.mem_map.mpr ⟨e, he, heq⟩)
          simp [List.filter_cons, hrest]
        · have hne : e.1 ≠ kv.1 := by
            intro heq
            exact hnd.1 (List.mem_map.mpr ⟨kv, hmem, heq.symm⟩)
          simp [List.filter_cons, hne, ih hnd.2 hmem]
  simp [Obj.get, Obj.find?, hfilter]

theorem jsonObj_of_recordLike (o : Obj) (h : RecordLike o) : jsonObj o = o := by
  unfold jsonObj
  rw [List.filter_eq_self]
  intro kv hkv
  rw [Obj.get_of_mem o h.1 kv hkv]
  simpa using h.2 kv hkv

theorem RecordLike.set {o : Obj} (h : RecordLike o) (k : String) (v : JsVal)
    (hhas : o.has k = true) (hv : v ≠ JsVal.undefined) : RecordLike (o.set k v) := by
  refine ⟨by rw [Obj.keys_set o k v hhas]; exact h.1, ?_⟩
  intro kv hkv
  simp only [Obj.set, hhas, if_true, List.mem_map] at hkv
  obtain ⟨e, he, rfl⟩ := hkv
  by_cases hk : e.1 = k
  · simpa [hk] using hv
  · simpa [hk] using h.2 e he

/-- Two lists with the same keys in the same order, none repeated, that read alike
are the same list. -/
theorem Obj.ext_of_keys (o₁ o₂ : Obj) (hkeys : o₁.map Prod.fst = o₂.map Prod.fst)
    (hnd : (o₁.map Prod.fst).Nodup) (hget : ∀ k, o₁.get k = o₂.get k) : o₁ = o₂ := by
  have hlen : o₁.length = o₂.length := by
    have := congrArg List.length hkeys
    simpa using this
  apply List.ext_getElem hlen
  intro n h₁ h₂
  have hk : (o₁[n]).1 = (o₂[n]).1 := by
    have h := congrArg (fun l => l[n]?) hkeys
    simp only [List.getElem?_map, List.getElem?_eq_getElem h₁, List.getElem?_eq_getElem h₂,
      Option.map_some', Option.some.injEq] at h
    exact h
  have hv₁ := Obj.get_of_mem o₁ hnd _ (List.getElem_mem h₁)
  have hv₂ := Obj.get_of_mem o₂ (by rw [← hkeys]; exact hnd) _ (List.getElem_mem h₂)
  apply Prod.ext hk
  rw [← hv₁, ← hv₂, hget, hk]

theorem encryptAccount_keys {P : Platform} {iv₁ iv₂ : IV} {account enc : Obj}
    (h : encryptAccount P iv₁ iv₂ account = some enc) (hrec : RecordLike account) :
    enc.map Prod.fst = account.map Prod.fst ∧ RecordLike enc := by
  unfold encryptAccount at h
  split at h
  · rename_i hc
    split at h
    · cases h
    · rename_i access _
      have hha : account.has "accessToken" = true := Obj.has_of_truthy hc.2
      have hrec₁ := hrec.set "accessToken" (.str access) hha (by simp)
      simp only [] at h
      split at h
      · rename_i hrt
        split at h
        · cases h
        · rename_i refresh _
          simp only [Option.some.injEq] at h
          subst h
          have hhr := Obj.has_of_truthy hrt
          exact ⟨by rw [Obj.keys_set _ _ _ hhr, Obj.keys_set _ _ _ hha],
            hrec₁.set "refreshToken" (.str refresh) hhr (by simp)⟩
      · simp only [Option.some.injEq] at h
        subst h
        exact ⟨Obj.keys_set _ _ _ hha, hrec₁⟩
  · simp only [Option.some.injEq] at h
    subst h
    exact ⟨rfl, hrec⟩

theorem decryptAccount_keys (P : Platform) (o : Obj) :
    (decryptAccount P o).map Prod.fst = o.map Prod.fst := by
  unfold decryptAccount
  split
  · rename_i hc
    have hha : o.has "accessToken" = true := Obj.has_of_truthy hc.2
    simp only []
    split
    · rename_i hrt
      rw [Obj.keys_set _ _ _ (Obj.has_of_truthy hrt), Obj.keys_set _ _ _ hha]
    · exact Obj.keys_set _ _ _ hha
  · rfl

/-- One account through `saveAccounts` and `loadAccounts`: a record comes back as
it was. -/
theorem account_round_trip_eq (P : Platform) (hP : P.Lawful) (iv₁ iv₂ : IV)
    (account enc : Obj)
    (ha : isStringOrNull (account.get "accessToken") = true)
    (hr : isStringOrNull (account.get "refreshToken") = true)
    (h : encryptAccount P iv₁ iv₂ account = some enc) (hrec : RecordLike account) :
    decryptAccount P (jsonObj enc) = account := by
  obtain ⟨hkeys, hrecEnc⟩ := encryptAccount_keys h hrec
  apply Obj.ext_of_keys
  · rw [decryptAccount_keys, jsonObj_of_recordLike enc hrecEnc, hkeys]
  · rw [decryptAccount_keys, jsonObj_of_recordLike enc hrecEnc, hkeys]
    exact hrec.1
  · exact account_round_trip P hP iv₁ iv₂ account enc ha hr h

/-- The accounts of a store through `saveAccounts` and `loadAccounts`. -/
theorem accounts_round_trip (P : Platform) (hP : P.Lawful) (ivs : Nat → IV) (n : Nat)
    (l encs : List Obj)
    (htokens : ∀ acc ∈ l, isStringOrNull (acc.get "accessToken") = true ∧
      isStringOrNull (acc.get "refreshToken") = true)
    (h : encryptAccounts P ivs n l = some encs) :
    (∀ k, ((encs.map jsonObj).map (decryptAccount P)).map (fun a => a.get k) =
      l.map (fun a => a.get k)) ∧
    ((∀ acc ∈ l, RecordLike acc) → (encs.map jsonObj).map (decryptAccount P) = l) := by
  induction l generalizing n encs with
  | nil =>
      simp only [encryptAccounts, Option.some.injEq] at h
      subst h
      exact ⟨fun _ => rfl, fun _ => rfl⟩
  | cons a rest ih =>
      unfold encryptAccounts at h
      cases ha : encryptAccount P (ivs (2 * n)) (ivs (2 * n + 1)) a with
      | none => simp [ha] at h
      | some enc =>
          cases hrest : encryptAccounts P ivs (n + 1) rest with
          | none => simp [ha, hrest] at h
          | some encs' =>
              simp only [ha, hrest, Option.some.injEq] at h
              subst h
              have hta := htokens a (by simp)
              obtain ⟨ih₁, ih₂⟩ := ih (n + 1) encs'
                (fun acc hacc => htokens acc (by simp [hacc])) hrest
              refine ⟨fun k => ?_, fun hrec => ?_⟩
              · simp only [List.map_cons]
                rw [account_round_trip P hP _ _ a enc hta.1 hta.2 ha k, ih₁ k]
              · simp only [List.map_cons]
                rw [account_round_trip_eq P hP _ _ a enc hta.1 hta.2 ha (hrec a (by simp)),
                  ih₂ (fun acc hacc => hrec acc (by simp [hacc]))]

/-- With tokens that are strings or `null`, `encrypt` does not throw on a lawful
platform, so a save fails only when the file cannot be written. -/
theorem encryptAccounts_succeeds (P : Platform) (hP : P.Lawful) (ivs : Nat → IV) (n : Nat)
    (l : List Obj)
    (htokens : ∀ acc ∈ l, isStringOrNull (acc.get "accessToken") = true ∧
      isStringOrNull (acc.get "refreshToken") = true) :
    ∃ encs, encryptAccounts P ivs n l = some encs := by
  have hk : (getKey P).length = 32 := hP.1 _
  induction l generalizing n with
  | nil => exact ⟨[], rfl⟩
  | cons a rest ih =>
      obtain ⟨encs, hencs⟩ := ih (n + 1) (fun acc hacc => htokens acc (by simp [hacc]))
      have hta := htokens a (by simp)
      have hone : ∃ enc, encryptAccount P (ivs (2 * n)) (ivs (2 * n + 1)) a = some enc := by
        unfold encryptAccount
        split
        · rename_i hc
          obtain ⟨s, hs⟩ := truthy_string hta.1 hc.2
          simp only [hs, encrypt, hk, if_true]
          rw [Obj.get_set_other _ "accessToken" "refreshToken" _ (by decide)]
          split
          · rename_i hrt
            obtain ⟨r, hr⟩ := truthy_string hta.2 hrt
            simp only [hr]
            exact ⟨_, rfl⟩
          · exact ⟨_, rfl⟩
        · exact ⟨_, rfl⟩
      obtain ⟨enc, henc⟩ := hone
      exact ⟨enc :: encs, by simp only [encryptAccounts, henc, hencs]⟩

/-- C14: on a lawful platform, for every store whose accounts have tokens that are
strings or `null`, after a successful `saveAccounts(store)` the next
`loadAccounts()` returns the same `selectedAccount` and as many accounts, in the
same order, each reading every property, the two tokens included, as it was
saved; and it returns the very store saved when its accounts are records (no
key twice, no `undefined` value). -/
theorem load_after_save (P : Platform) (hP : P.Lawful) (env : Env) (disk : Disk)
    (store : Store)
    (htokens : ∀ acc ∈ store.accounts, isStringOrNull (acc.get "accessToken") = true ∧
      isStringOrNull (acc.get "refreshToken") = true)
    (hsaved : (saveAccounts P env disk store).1 = true) :
    ∃ loaded : Store,
      loadAccounts P (saveAccounts P env disk store).2 = .store loaded ∧
      loaded.selectedAccount = store.selectedAccount ∧
      loaded.accounts.length = store.accounts.length ∧
      (∀ k, loaded.accounts.map (fun a => a.get k) = store.accounts.map (fun a => a.get k)) ∧
      ((∀ acc ∈ store.accounts, RecordLike acc) →
        loadAccounts P (saveAccounts P env disk store).2 = .store store) := by
  unfold saveAccounts at hsaved ⊢
  by_cases hw : env.writable = true
  · simp only [hw, if_true] at hsaved ⊢
    unfold documentToSave at hsaved ⊢
    cases he : encryptAccounts P env.ivs 0 store.accounts with
    | none => simp [he] at hsaved
    | some encs =>
        obtain ⟨hget, heq⟩ := accounts_round_trip P hP env.ivs 0 store.accounts encs htokens he
        simp only [loadAccounts]
        refine ⟨_, rfl, rfl, ?_, hget, ?_⟩
        · have := congrArg List.length (hget "type")
          simpa using this
        · intro hrec
          rw [heq hrec]
  · simp [hw] at hsaved

/-- C14 on a store that holds a microsoft account with both tokens, one with a
`null` and one with an empty access token, and an offline account: what is
loaded after the save is the store saved. -/
theorem load_after_save_witness :
    loadAccounts samplePlatform
      (saveAccounts samplePlatform (sampleEnv 0) .absent sampleMixedStore).2 =
      .store sampleMixedStore :=
  let ⟨_, _, _, _, _, h⟩ :=
    load_after_save samplePlatform samplePlatform_lawful (sampleEnv 0) .absent
      sampleMixedStore (by decide) (by decide)
  h (by decide)

end Voxel
